import Mathlib

/-!
Shallow embedding of the `s3-managed-download` package.

The embedding covers the three source files:
* `getInformationFromRange.ts` — parsing a client range string of the form
  `bytes=<digits>-<digits>` into start byte, end byte and length;
* `getRangeOfPart.ts` — rendering the byte range of a part as a string;
* `ManagedDownloader.ts` — `getObjectStream` (bootstrap fetch, metadata
  assignment, request mutation) and `downloadByParts` (the FIFO sliding-window
  scheduler), modelled as pure functions over an abstract store
  (`client.getObject(...).promise()` becomes a function from request
  parameters to `Except`), with the scheduler's observable actions recorded
  as an event trace.

JavaScript numbers are modelled as `Nat`/`Int`; values that can be
`undefined`/`NaN` are modelled as `Option`; JavaScript truthiness of the
relevant fields is modelled explicitly (`strTruthy`, `numTruthy`,
`jsFalsyNum`).
-/

instance {ε α : Type} [DecidableEq ε] [DecidableEq α] : DecidableEq (Except ε α)
  | .error a, .error b =>
    if h : a = b then isTrue (by rw [h]) else isFalse (fun hh => h (by cases hh; rfl))
  | .error _, .ok _ => isFalse (fun h => by cases h)
  | .ok _, .error _ => isFalse (fun h => by cases h)
  | .ok a, .ok b =>
    if h : a = b then isTrue (by rw [h]) else isFalse (fun hh => h (by cases hh; rfl))

/-- Holds exactly on the characters matched by `[0-9]` in the source regex. -/
def isDigitChar (c : Char) : Bool :=
  decide ('0' ≤ c ∧ c ≤ '9')

/-- Numeric value of a decimal digit character. -/
def digitVal (c : Char) : Nat :=
  c.toNat - '0'.toNat

/-- Value of a decimal digit string, as computed by JavaScript `parseInt`
on an all-digit string. -/
def digitsToNat (cs : List Char) : Nat :=
  cs.foldl (fun a c => a * 10 + digitVal c) 0

/-- The decimal digit character for a value `< 10` (used to model how
JavaScript renders numbers in template/`+` string conversion). -/
def digitToChar (d : Nat) : Char :=
  match d with
  | 0 => '0'
  | 1 => '1'
  | 2 => '2'
  | 3 => '3'
  | 4 => '4'
  | 5 => '5'
  | 6 => '6'
  | 7 => '7'
  | 8 => '8'
  | 9 => '9'
  | _ => '*'

/-- Fuel-indexed decimal rendering of a natural number (most significant
digit first). `fuel > n` is always enough. -/
def natDigitsCore : Nat → Nat → List Char
  | 0, _ => []
  | fuel + 1, n =>
    if n < 10 then [digitToChar n]
    else natDigitsCore fuel (n / 10) ++ [digitToChar (n % 10)]

/-- Decimal rendering of a natural number, as JavaScript renders it. -/
def natToString (n : Nat) : String :=
  ⟨natDigitsCore (n + 1) n⟩

/-- Decimal rendering of an integer, as JavaScript renders it. -/
def intToString (m : Int) : String :=
  if m < 0 then "-" ++ natToString (-m).toNat else natToString m.toNat

/-- Result record of `getInformationFromRange`: start byte, end byte, and
length of the client-provided range. The length is `end − start` (an
integer: the source performs plain number subtraction, which is negative
for a reversed range). -/
structure RangeInfo where
  startByte : Nat
  endByte : Nat
  length : Int
deriving DecidableEq, Repr

/-- The error message thrown by `getInformationFromRange`. -/
def rangeErrorMessage : String :=
  "Invalid Range provided by client"

/-- Model of `getInformationFromRange` from `getInformationFromRange.ts`: matches the
input against the regex `^bytes=([0-9]+)-([0-9]+)$` and returns
`{startByte, endByte, length = endByte − startByte}`, throwing (modelled as
`Except.error`) when the regex does not match. -/
def getInformationFromRange (range : String) : Except String RangeInfo :=
  match range.data with
  | 'b' :: 'y' :: 't' :: 'e' :: 's' :: '=' :: rest =>
    let d1 := rest.takeWhile isDigitChar
    if d1.isEmpty then .error rangeErrorMessage
    else
      match rest.dropWhile isDigitChar with
      | '-' :: d2 =>
        if d2.isEmpty || !(d2.all isDigitChar) then .error rangeErrorMessage
        else .ok ⟨digitsToNat d1, digitsToNat d2,
                  (digitsToNat d2 : Int) - (digitsToNat d1 : Int)⟩
      | _ => .error rangeErrorMessage
  | _ => .error rangeErrorMessage

/-- Start byte computed by `getRangeOfPart`: `partNum * maxPartSize +
byteOffset` (natural-number mirror of the source arithmetic, which contains
no subtraction). -/
def partStartByteN (partNum maxPartSize byteOffset : Nat) : Nat :=
  partNum * maxPartSize + byteOffset

/-- Exclusive end byte computed by `getRangeOfPart`:
`min totalObjectLength ((partNum+1) * maxPartSize) + byteOffset`. The
string rendered by the source uses the inclusive end `partEndByteN − 1`. -/
def partEndByteN (partNum totalObjectLength maxPartSize byteOffset : Nat) : Nat :=
  min totalObjectLength ((partNum + 1) * maxPartSize) + byteOffset

/-- Model of `getRangeOfPart` from `getRangeOfPart.ts`, over JavaScript numbers
(modelled as `Int`): renders `bytes=<startByte>-<endByte − 1>`. -/
def getRangeOfPart (partNum totalObjectLength maxPartSize byteOffset : Int) : String :=
  let startByte : Int := partNum * maxPartSize + byteOffset
  let endByte : Int := min totalObjectLength ((partNum + 1) * maxPartSize) + byteOffset
  "bytes=" ++ intToString startByte ++ "-" ++ intToString (endByte - 1)

/-- Value of `Math.ceil(contentLength / maxPartSize)` as computed by
`downloadByParts`, for a positive integer `maxPartSize`. -/
def numPartsOf (contentLength maxPartSize : Nat) : Nat :=
  (contentLength + maxPartSize - 1) / maxPartSize

/-- The set of object bytes requested by part `partNum`: the half-open
interval from the part's start byte to its exclusive end byte (the wire
string requests the inclusive range `partStartByteN .. partEndByteN − 1`). -/
def partByteSet (partNum totalObjectLength maxPartSize byteOffset : Nat) : Finset Nat :=
  Finset.Ico (partStartByteN partNum maxPartSize byteOffset)
    (partEndByteN partNum totalObjectLength maxPartSize byteOffset)

/-- Parameter record of `getObjectStream` (`GetObjectStreamInput` in the
source): bucket, key, optional range string, optional part number. A missing
field is `none`; JavaScript truthiness of the optional fields is modelled by
`strTruthy` and `numTruthy` below. -/
structure GetObjectStreamInput where
  Bucket : String
  Key : String
  Range : Option String
  PartNumber : Option Nat
deriving DecidableEq, Repr

/-- The part of `S3.GetObjectOutput` the source reads: the payload bytes,
the optional `ContentRange` header and the optional `ContentType` header. -/
structure GetObjectOutput where
  Body : List Nat
  ContentRange : Option String
  ContentType : Option String
deriving DecidableEq, Repr

/-- The abstract object store: `client.getObject(params).promise()` becomes
a pure function from the request parameters (as serialized at call time) to
either a failure or a `GetObjectOutput`. -/
abbrev Store := GetObjectStreamInput → Except String GetObjectOutput

/-- Failures of the download model: the parameter-format error, the
invalid-range error, the `TypeError` raised by dereferencing a missing
`ContentRange`, the `undefined` result of `queue.shift()` on an empty
queue, and a store (fetch) failure. -/
inductive MDErr where
  | invalidFormat
  | invalidRange
  | contentRangeUndefined
  | shiftUndefined
  | fetch (e : String)
deriving DecidableEq, Repr

/-- JavaScript truthiness of an optional string field (`undefined` and the
empty string are falsy). -/
def strTruthy : Option String → Bool
  | none => false
  | some s => !(s == "")

/-- JavaScript truthiness of an optional number field (`undefined` and `0`
are falsy). -/
def numTruthy : Option Nat → Bool
  | none => false
  | some n => !(n == 0)

/-- JavaScript falsiness of the `contentLength` variable in
`getObjectStream` (`undefined`, `NaN` — both modelled as `none` — and `0`
are falsy). -/
def jsFalsyNum : Option Int → Bool
  | none => true
  | some v => v == 0

/-- The comparison `contentLength > maxPartSize` on a possibly
`undefined`/`NaN` number (any comparison with `NaN` is false). -/
def jsGtNat : Option Int → Nat → Bool
  | none, _ => false
  | some v, p => decide ((p : Int) < v)

/-- The value of JavaScript `parseInt` on the longest digit prefix,
`none` when there is no leading digit (i.e. `parseInt` returns `NaN`). -/
def digitPrefixVal (cs : List Char) : Option Nat :=
  let ds := cs.takeWhile isDigitChar
  if ds.isEmpty then none else some (digitsToNat ds)

/-- JavaScript `parseInt` on a string: optional sign followed by a digit
prefix; `none` models `NaN`. -/
def jsParseInt (s : String) : Option Int :=
  match s.data with
  | '-' :: rest => (digitPrefixVal rest).map fun n => -(n : Int)
  | '+' :: rest => (digitPrefixVal rest).map fun n => (n : Int)
  | cs => (digitPrefixVal cs).map fun n => (n : Int)

/-- Model of `contentRange.split('/')[1]`: the text between the first and second
slash, `none` (i.e. `undefined`) when the string contains no slash. -/
def contentRangeSecondField (s : String) : Option String :=
  match s.data.dropWhile (fun c => !(c == '/')) with
  | [] => none
  | _ :: rest => some ⟨rest.takeWhile (fun c => !(c == '/'))⟩

/-- Model of `parseInt(getObjectData.ContentRange.split('/')[1])`: `none` models a
`NaN` result (no slash, or a non-numeric total). -/
def parseTotalFromContentRange (cr : String) : Option Int :=
  match contentRangeSecondField cr with
  | none => none
  | some t => jsParseInt t

/-- Observable actions of the `downloadByParts` scheduler, recorded as an
event trace:
* `issue i ps` — `params.Range` was set to part `i`'s range and
  `client.getObject(params)` was called with snapshot `ps`;
* `awaited i t` — `await queue.shift()` returned part `i`'s handle; `t` is
  the wall-clock instant (the maximum of the current clock and the part's
  completion time), recording that completion order affects timing only;
* `write i b ok` — `destinationStream.write` was called with part `i`'s
  payload `b` and returned `ok`;
* `waitDrain` — the loop suspended in `waitForDrainEvent` until the
  stream's drain notification;
* `ended` — `destinationStream.end()` was called;
* `errored e` — the `catch` block ran: the failure was emitted on the
  stream and the loop returned. -/
inductive DBPEv where
  | issue (i : Nat) (ps : GetObjectStreamInput)
  | awaited (i : Nat) (t : Nat)
  | write (i : Nat) (b : List Nat) (ok : Bool)
  | waitDrain
  | ended
  | errored (e : MDErr)
deriving DecidableEq, Repr

/-- The request parameters as they stand when part `i`'s fetch is issued:
the source mutates `params.Range` to part `i`'s range string before each
`getObject` call. -/
def rangeParamsFor (params : GetObjectStreamInput)
    (i contentLength maxPartSize byteOffset : Nat) : GetObjectStreamInput :=
  { params with Range := some (getRangeOfPart i contentLength maxPartSize byteOffset) }

/-- One execution of the `downloadByParts` while-loop, recursing on the
number of deliveries still owed (`remaining = numParts − startingPart −
numDownloads`, which the loop guard compares against).

State per iteration: the FIFO `queue` of outstanding handles (part index
paired with the promise's settled value — a promise's value is fixed at
creation, regardless of when it resolves), the current `params` object,
`currentPart`, the number of `write` calls so far (indexing the stream's
readiness behaviour `ready`), and the clock (updated from `finish` at each
await; it influences timing data only).

Each iteration: fill the window to `min(maxConcurrency − queue.length,
numParts − currentPart)` new fetches (mutating `params.Range` each time),
then `await queue.shift()` (the head; `shiftUndefined` models the
`undefined` dereference on an empty queue, which cannot occur when
`maxConcurrency ≥ 1`), write the payload, wait for drain when the write
returned `false`, and repeat. A rejected head runs the `catch` block. -/
def dbpGo (maxPartSize maxConcurrency : Nat) (store : Store) (ready : Nat → Bool)
    (finish : Nat → Nat) (contentLength byteOffset numParts : Nat) :
    Nat → List (Nat × Except String GetObjectOutput) → GetObjectStreamInput →
    Nat → Nat → Nat → List DBPEv
  | 0, _, _, _, _, _ => [.ended]
  | remaining + 1, queue, ps, currentPart, writeCount, clock =>
    let n := min (maxConcurrency - queue.length) (numParts - currentPart)
    let newIdx := List.range' currentPart n
    let issueEvs := newIdx.map fun i =>
      DBPEv.issue i (rangeParamsFor ps i contentLength maxPartSize byteOffset)
    let newEntries := newIdx.map fun i =>
      (i, store (rangeParamsFor ps i contentLength maxPartSize byteOffset))
    let ps' := if n = 0 then ps
      else rangeParamsFor ps (currentPart + n - 1) contentLength maxPartSize byteOffset
    match queue ++ newEntries with
    | [] => issueEvs ++ [.errored .shiftUndefined]
    | (h, res) :: rest =>
      let clock' := max clock (finish h)
      match res with
      | .error e => issueEvs ++ [.awaited h clock', .errored (.fetch e)]
      | .ok out =>
        issueEvs ++ [.awaited h clock', .write h out.Body (ready writeCount)]
          ++ (if ready writeCount then [] else [.waitDrain])
          ++ dbpGo maxPartSize maxConcurrency store ready finish contentLength
               byteOffset numParts remaining rest ps' (currentPart + n)
               (writeCount + 1) clock'

/-- Model of `downloadByParts` from `ManagedDownloader.ts`: computes
`numParts = Math.ceil(contentLength / maxPartSize)` and runs the
fill/drain/deliver loop from `startingPart` with an empty queue, returning
the event trace. -/
def downloadByParts (maxPartSize maxConcurrency : Nat) (store : Store)
    (ready : Nat → Bool) (finish : Nat → Nat) (params : GetObjectStreamInput)
    (contentLength byteOffset startingPart : Nat) : List DBPEv :=
  dbpGo maxPartSize maxConcurrency store ready finish contentLength byteOffset
    (numPartsOf contentLength maxPartSize)
    (numPartsOf contentLength maxPartSize - startingPart) [] params startingPart 0 0

/-- The sequence of `(part index, payload)` pairs written to the
destination stream, in trace order. -/
def dbpWrites (tr : List DBPEv) : List (Nat × List Nat) :=
  tr.filterMap fun ev =>
    match ev with
    | .write i b _ => some (i, b)
    | _ => none

/-- The scheduling decisions of a trace: the backpressure suspensions are
removed and the write events' readiness results erased (normalised to
`true`). Two runs with the same `scheduleTrace` issued the same fetches with
the same parameters in the same order, delivered the same payloads in the
same order, kept the same queue, and finished the same way. -/
def scheduleTrace (tr : List DBPEv) : List DBPEv :=
  tr.filterMap fun ev =>
    match ev with
    | .waitDrain => none
    | .write i b _ => some (.write i b true)
    | e => some e

/-- Checks the backpressure discipline of a trace: every not-ready write is
followed immediately by exactly one drain wait, and drain waits occur
nowhere else. -/
def drainDiscipline : List DBPEv → Bool
  | [] => true
  | .write _ _ false :: .waitDrain :: rest => drainDiscipline rest
  | .write _ _ false :: _ => false
  | .waitDrain :: _ => false
  | _ :: rest => drainDiscipline rest

/-- Result of a successful `getObjectStream` call: the metadata set on the
destination stream, the parameters of the bootstrap fetch, the bootstrap
payload written first, and — when `downloadByParts` was started — the
pipeline's event trace (`none` when the stream was ended right after the
bootstrap write). -/
structure StreamResult where
  mimeType : Option String
  contentLength : Option Int
  bootstrapParams : GetObjectStreamInput
  bootstrapBody : List Nat
  pipeline : Option (List DBPEv)
deriving DecidableEq, Repr

/-- Model of `getObjectStream` from `ManagedDownloader.ts`:
1. reject (`invalidFormat`) when `Bucket` or `Key` is falsy;
2. when `Range` is truthy and `PartNumber` falsy, parse the range
   (`invalidRange` on failure), remember its length and start byte and
   overwrite `params.Range` with part 0's sub-range; else when `PartNumber`
   is falsy, overwrite `params.Range` with `bytes=0-(maxPartSize-1)`; else
   leave `params` unchanged;
3. perform the bootstrap fetch with the mutated parameters;
4. `contentLength = contentLength || parseInt(ContentRange.split('/')[1])`
   — when the client range did not determine a non-zero length this
   dereferences `ContentRange` (a missing header is the `TypeError`
   `contentRangeUndefined`);
5. set the stream metadata, write the bootstrap payload, and either start
   `downloadByParts` from part 1 (when `contentLength > maxPartSize` and no
   part number) or end the stream. -/
def getObjectStream (maxPartSize maxConcurrency : Nat) (store : Store)
    (ready : Nat → Bool) (finish : Nat → Nat) (params : GetObjectStreamInput) :
    Except MDErr StreamResult :=
  if params.Bucket = "" ∨ params.Key = "" then .error .invalidFormat
  else
    let step1 : Except MDErr (Option Int × Option Nat × GetObjectStreamInput) :=
      if strTruthy params.Range && !(numTruthy params.PartNumber) then
        match getInformationFromRange (params.Range.getD ("")) with
        | .error _ => .error .invalidRange
        | .ok ri =>
          .ok (some ri.length, some ri.startByte,
            { params with
                Range := some (getRangeOfPart 0 ri.length maxPartSize ri.startByte) })
      else if !(numTruthy params.PartNumber) then
        .ok (none, none,
          { params with Range := some ("bytes=0-" ++ intToString ((maxPartSize : Int) - 1)) })
      else .ok (none, none, params)
    match step1 with
    | .error e => .error e
    | .ok (clientLength, byteOffset, ps) =>
      match store ps with
      | .error e => .error (.fetch e)
      | .ok out =>
        let clStep : Except MDErr (Option Int) :=
          if jsFalsyNum clientLength then
            match out.ContentRange with
            | none => .error .contentRangeUndefined
            | some cr => .ok (parseTotalFromContentRange cr)
          else .ok clientLength
        match clStep with
        | .error e => .error e
        | .ok cl =>
          .ok { mimeType := out.ContentType
                contentLength := cl
                bootstrapParams := ps
                bootstrapBody := out.Body
                pipeline :=
                  if jsGtNat cl maxPartSize && !(numTruthy ps.PartNumber) then
                    some (downloadByParts maxPartSize maxConcurrency store ready
                      finish ps (cl.getD 0).toNat (byteOffset.getD 0) 1)
                  else none }

/-- All bytes delivered on the destination stream: the bootstrap payload
followed by the pipeline's writes in trace order. -/
def streamBytes (r : StreamResult) : List Nat :=
  r.bootstrapBody ++ ((dbpWrites (r.pipeline.getD [])).map Prod.snd).flatten

/-- The bytes of part `i` of the source object (`source` maps a byte offset
to a byte): the slice of the half-open interval `partByteSet`. -/
def partSlice (source : Nat → Nat) (i total p off : Nat) : List Nat :=
  (List.range' (partStartByteN i p off)
    (partEndByteN i total p off - partStartByteN i p off)).map source

/-! ### Decimal-rendering and parsing lemmas -/

theorem digitToChar_spec : ∀ d : Nat, d < 10 →
    isDigitChar (digitToChar d) = true ∧ digitVal (digitToChar d) = d := by
  decide

theorem digitsToNat_append_singleton (cs : List Char) (c : Char) :
    digitsToNat (cs ++ [c]) = digitsToNat cs * 10 + digitVal c := by
  simp [digitsToNat, List.foldl_append]

theorem natDigitsCore_spec : ∀ fuel n : Nat, n < fuel →
    (natDigitsCore fuel n).all isDigitChar = true ∧
    digitsToNat (natDigitsCore fuel n) = n ∧ natDigitsCore fuel n ≠ []
  | 0, _, h => absurd h (by omega)
  | fuel + 1, n, _h => by
    by_cases h10 : n < 10
    · refine ⟨?_, ?_, ?_⟩ <;> simp [natDigitsCore, h10, digitsToNat]
      · exact (digitToChar_spec n h10).1
      · exact (digitToChar_spec n h10).2
    · have hn : 0 < n := by omega
      have hlt : n / 10 < fuel := by
        have := Nat.div_lt_self hn (by omega : 1 < 10)
        omega
      have ih := natDigitsCore_spec fuel (n / 10) hlt
      have hmod := digitToChar_spec (n % 10) (Nat.mod_lt n (by omega))
      have hdm := Nat.div_add_mod n 10
      refine ⟨?_, ?_, ?_⟩
      · simp [natDigitsCore, h10, List.all_append, ih.1, hmod.1]
      · simp [natDigitsCore, h10, digitsToNat_append_singleton, ih.2.1, hmod.2]
        omega
      · simp [natDigitsCore, h10]

theorem natToString_digits (n : Nat) :
    (natToString n).data.all isDigitChar = true ∧
    digitsToNat (natToString n).data = n ∧ (natToString n).data ≠ [] :=
  natDigitsCore_spec (n + 1) n (Nat.lt_succ_self n)

theorem takeWhile_all_append {p : Char → Bool} :
    ∀ (d1 : List Char) (x : Char) (r : List Char),
    d1.all p = true → p x = false →
    (d1 ++ x :: r).takeWhile p = d1 ∧ (d1 ++ x :: r).dropWhile p = x :: r
  | [], x, r, _, hx => by simp [List.takeWhile, List.dropWhile, hx]
  | c :: d1, x, r, hall, hx => by
    rw [List.all_cons, Bool.and_eq_true] at hall
    have ih := takeWhile_all_append d1 x r hall.2 hx
    simp [List.takeWhile_cons, List.dropWhile_cons, hall.1, ih.1, ih.2]

/-- The set of strings matched by the source regex
`^bytes=([0-9]+)-([0-9]+)$`, stated independently of the parser: a literal
`bytes=` prefix, a non-empty digit group, a dash, a non-empty digit group. -/
def rangeStringWellFormed (s : String) : Prop :=
  ∃ d1 d2 : List Char, d1 ≠ [] ∧ d2 ≠ [] ∧
    d1.all isDigitChar = true ∧ d2.all isDigitChar = true ∧
    s.data = 'b' :: 'y' :: 't' :: 'e' :: 's' :: '=' :: (d1 ++ '-' :: d2)

theorem getInformationFromRange_ok_of_decomp {s : String} {d1 d2 : List Char}
    (h1 : d1 ≠ []) (h2 : d2 ≠ []) (ha1 : d1.all isDigitChar = true)
    (ha2 : d2.all isDigitChar = true)
    (hdata : s.data = 'b' :: 'y' :: 't' :: 'e' :: 's' :: '=' :: (d1 ++ '-' :: d2)) :
    getInformationFromRange s =
      .ok ⟨digitsToNat d1, digitsToNat d2,
           (digitsToNat d2 : Int) - (digitsToNat d1 : Int)⟩ := by
  have hdash : isDigitChar '-' = false := by decide
  have htw := takeWhile_all_append d1 '-' d2 ha1 hdash
  unfold getInformationFromRange
  rw [hdata]
  simp only [htw.1, htw.2]
  simp [h1, h2, ha2, List.isEmpty_iff]

theorem getInformationFromRange_decomp_of_ok {s : String} {ri : RangeInfo}
    (h : getInformationFromRange s = .ok ri) :
    ∃ d1 d2 : List Char, d1 ≠ [] ∧ d2 ≠ [] ∧
      d1.all isDigitChar = true ∧ d2.all isDigitChar = true ∧
      s.data = 'b' :: 'y' :: 't' :: 'e' :: 's' :: '=' :: (d1 ++ '-' :: d2) ∧
      ri = ⟨digitsToNat d1, digitsToNat d2,
            (digitsToNat d2 : Int) - (digitsToNat d1 : Int)⟩ := by
  unfold getInformationFromRange at h
  split at h
  next rest heq =>
    by_cases he : (rest.takeWhile isDigitChar).isEmpty = true
    · rw [if_pos he] at h
      exact absurd h (by simp)
    · rw [if_neg he] at h
      split at h
      next d2 heq2 =>
        by_cases hc : (d2.isEmpty || !(d2.all isDigitChar)) = true
        · rw [if_pos hc] at h
          exact absurd h (by simp)
        · rw [if_neg hc] at h
          have hok := Except.ok.inj h
          have hcc : d2.isEmpty = false ∧ d2.all isDigitChar = true := by
            constructor
            · cases hemp : d2.isEmpty
              · rfl
              · exact absurd (by simp [hemp]) hc
            · cases hall : d2.all isDigitChar
              · exact absurd (by simp [hall]) hc
              · rfl
          refine ⟨rest.takeWhile isDigitChar, d2, ?_, ?_, ?_, hcc.2, ?_, hok.symm⟩
          · intro hnil
            rw [hnil] at he
            exact he rfl
          · intro hnil
            rw [hnil] at hcc
            exact absurd hcc.1 (by simp)
          · rw [List.all_eq_true]
            intro x hx
            exact List.mem_takeWhile_imp hx
          · rw [heq]
            have hsplit : rest = rest.takeWhile isDigitChar ++ rest.dropWhile isDigitChar :=
              (List.takeWhile_append_dropWhile isDigitChar rest).symm
            rw [heq2] at hsplit
            conv_lhs => rw [hsplit]
      next => exact absurd h (by simp)
  next => exact absurd h (by simp)

/-- A string accepted by `getInformationFromRange` is non-empty (used to
discharge the truthiness test `params.Range && ...`). -/
theorem getInformationFromRange_ne_empty {s : String} {ri : RangeInfo}
    (h : getInformationFromRange s = .ok ri) : s ≠ "" := by
  obtain ⟨d1, d2, _, _, _, _, hdata, _⟩ := getInformationFromRange_decomp_of_ok h
  intro hs
  rw [hs] at hdata
  exact absurd hdata (by simp)

/-! ### Partition lemmas for the part ranges -/

theorem numPartsOf_eq_ceilDiv (total p : Nat) : numPartsOf total p = total ⌈/⌉ p :=
  (Nat.ceilDiv_eq_add_pred_div total p).symm

theorem lt_numPartsOf_iff {total p i : Nat} (hp : 0 < p) :
    i < numPartsOf total p ↔ p * i < total := by
  rw [numPartsOf_eq_ceilDiv, ← not_le, ← not_le]
  exact not_congr (ceilDiv_le_iff_le_mul hp)

theorem total_le_numPartsOf_mul {total p : Nat} (hp : 0 < p) :
    total ≤ p * numPartsOf total p := by
  rw [numPartsOf_eq_ceilDiv]
  simpa [smul_eq_mul] using @le_smul_ceilDiv ℕ ℕ _ _ _ _ p total hp

theorem mem_partByteSet_iff {i total p off b : Nat} :
    b ∈ partByteSet i total p off ↔
      i * p + off ≤ b ∧ b < min total ((i + 1) * p) + off := by
  rw [partByteSet, Finset.mem_Ico, partStartByteN, partEndByteN]

/-- Core partition fact behind §4.1 of the spec: for a positive part size,
the per-part byte intervals of `getRangeOfPart` are pairwise disjoint,
contiguous, and exactly cover `[byteOffset, byteOffset + totalLength)` when
the part index ranges over `0 .. numPartsOf − 1`. -/
theorem partByteSet_partition (total p off : Nat) (hp : 1 ≤ p) :
    (∀ b : Nat, (∃ i, i < numPartsOf total p ∧ b ∈ partByteSet i total p off) ↔
       off ≤ b ∧ b < off + total)
  ∧ (∀ i j b : Nat, b ∈ partByteSet i total p off → b ∈ partByteSet j total p off →
       i = j)
  ∧ (∀ i : Nat, i + 1 < numPartsOf total p →
       partStartByteN (i + 1) p off = partEndByteN i total p off) := by
  have hp' : 0 < p := hp
  refine ⟨?_, ?_, ?_⟩
  · intro b
    constructor
    · rintro ⟨i, hi, hb⟩
      rw [mem_partByteSet_iff] at hb
      have hmin : min total ((i + 1) * p) ≤ total := Nat.min_le_left _ _
      omega
    · rintro ⟨hob, hbt⟩
      refine ⟨(b - off) / p, ?_, ?_⟩
      · rw [lt_numPartsOf_iff hp']
        have h1 : p * ((b - off) / p) ≤ b - off := Nat.mul_div_le (b - off) p
        omega
      · rw [mem_partByteSet_iff]
        have h1 : (b - off) / p * p ≤ b - off := Nat.div_mul_le_self (b - off) p
        have h2 : b - off < ((b - off) / p + 1) * p := by
          rw [Nat.add_mul, one_mul]
          have hdm := Nat.div_add_mod (b - off) p
          have hm := Nat.mod_lt (b - off) hp'
          rw [Nat.mul_comm] at hdm
          omega
        have hmin : min total (((b - off) / p + 1) * p) + off =
            min (total + off) (((b - off) / p + 1) * p + off) := by omega
        omega
  · intro i j b hbi hbj
    rw [mem_partByteSet_iff] at hbi hbj
    have hi2 : b - off < (i + 1) * p := by
      have := Nat.min_le_right total ((i + 1) * p)
      omega
    have hj2 : b - off < (j + 1) * p := by
      have := Nat.min_le_right total ((j + 1) * p)
      omega
    have hi1 : i * p ≤ b - off := by omega
    have hj1 : j * p ≤ b - off := by omega
    have hdi : (b - off) / p = i := Nat.div_eq_of_lt_le hi1 hi2
    have hdj : (b - off) / p = j := Nat.div_eq_of_lt_le hj1 hj2
    omega
  · intro i hi
    have hle : (i + 1) * p < total := by
      rw [← Nat.mul_comm p (i + 1), ← lt_numPartsOf_iff hp']
      exact hi
    rw [partStartByteN, partEndByteN]
    have : min total ((i + 1) * p) = (i + 1) * p := Nat.min_eq_right (by omega)
    omega

/-! ### Trace lemmas for the downloadByParts scheduler -/

theorem range'_append_one (s m n : Nat) :
    List.range' s m ++ List.range' (s + m) n = List.range' s (m + n) := by
  rw [Nat.add_comm m n]
  simpa using List.range'_append s m n 1

theorem dbpGo_zero (p c : Nat) (store : Store) (ready : Nat → Bool) (finish : Nat → Nat)
    (total off numParts : Nat) (queue : List (Nat × Except String GetObjectOutput))
    (ps : GetObjectStreamInput) (currentPart wc clk : Nat) :
    dbpGo p c store ready finish total off numParts 0 queue ps currentPart wc clk
      = [.ended] := rfl

theorem dbpGo_succ (p c : Nat) (store : Store) (ready : Nat → Bool) (finish : Nat → Nat)
    (total off numParts remaining : Nat)
    (queue : List (Nat × Except String GetObjectOutput))
    (ps : GetObjectStreamInput) (currentPart wc clk : Nat) :
    dbpGo p c store ready finish total off numParts (remaining + 1) queue ps currentPart wc clk
      = (let n := min (c - queue.length) (numParts - currentPart)
         let newIdx := List.range' currentPart n
         let issueEvs := newIdx.map fun i =>
           DBPEv.issue i (rangeParamsFor ps i total p off)
         let newEntries := newIdx.map fun i =>
           (i, store (rangeParamsFor ps i total p off))
         let ps' := if n = 0 then ps
           else rangeParamsFor ps (currentPart + n - 1) total p off
         match queue ++ newEntries with
         | [] => issueEvs ++ [.errored .shiftUndefined]
         | (h, res) :: rest =>
           let clock' := max clk (finish h)
           match res with
           | .error e => issueEvs ++ [.awaited h clock', .errored (.fetch e)]
           | .ok out =>
             issueEvs ++ [.awaited h clock', .write h out.Body (ready wc)]
               ++ (if ready wc then [] else [.waitDrain])
               ++ dbpGo p c store ready finish total off numParts remaining rest ps'
                    (currentPart + n) (wc + 1) clock') := rfl

theorem dbpWrites_append (a b : List DBPEv) :
    dbpWrites (a ++ b) = dbpWrites a ++ dbpWrites b :=
  List.filterMap_append a b _

theorem dbpWrites_issues (l : List Nat) (f : Nat → GetObjectStreamInput) :
    dbpWrites (l.map fun i => DBPEv.issue i (f i)) = [] := by
  induction l with
  | nil => rfl
  | cons a l ih => simpa [dbpWrites, List.filterMap_cons] using ih

theorem rangeParamsFor_range (params : GetObjectStreamInput)
    (i contentLength maxPartSize byteOffset : Nat) :
    rangeParamsFor params i contentLength maxPartSize byteOffset
      = { params with
          Range := some (getRangeOfPart i contentLength maxPartSize byteOffset) } := rfl

theorem rangeParamsFor_update (params : GetObjectStreamInput) (r : Option String)
    (i contentLength maxPartSize byteOffset : Nat) :
    rangeParamsFor { params with Range := r } i contentLength maxPartSize byteOffset
      = rangeParamsFor params i contentLength maxPartSize byteOffset := rfl

theorem dbpGo_ok_run (p c : Nat) (store : Store) (ready : Nat → Bool) (finish : Nat → Nat)
    (total off numParts : Nat) (params0 : GetObjectStreamInput) (out : Nat → GetObjectOutput)
    (hc : 1 ≤ c)
    (hstore : ∀ i, i < numParts →
      store (rangeParamsFor params0 i total p off) = .ok (out i)) :
    ∀ remaining h qlen wc clk r, remaining = numParts - h → h + qlen ≤ numParts → qlen ≤ c →
      dbpWrites (dbpGo p c store ready finish total off numParts remaining
          ((List.range' h qlen).map fun i => (i, store (rangeParamsFor params0 i total p off)))
          { params0 with Range := r } (h + qlen) wc clk)
        = (List.range' h remaining).map (fun i => (i, (out i).Body))
      ∧ (dbpGo p c store ready finish total off numParts remaining
          ((List.range' h qlen).map fun i => (i, store (rangeParamsFor params0 i total p off)))
          { params0 with Range := r } (h + qlen) wc clk).getLast? = some .ended
  | 0, h, qlen, wc, clk, r, _, _, _ => by
    rw [dbpGo_zero]
    exact ⟨rfl, rfl⟩
  | remaining + 1, h, qlen, wc, clk, r, hrem, hq, hqc => by
    have hhn : h < numParts := by omega
    have hF : store (rangeParamsFor params0 h total p off) = .ok (out h) := hstore h hhn
    have hn1 : 1 ≤ qlen + min (c - qlen) (numParts - (h + qlen)) := by
      rcases Nat.eq_zero_or_pos qlen with hq0 | hq0
      · subst hq0
        have h1 : 1 ≤ numParts - h := by omega
        have h2 : 1 ≤ min (c - 0) (numParts - (h + 0)) := by
          rw [Nat.le_min]
          omega
        omega
      · omega
    set n := min (c - qlen) (numParts - (h + qlen)) with hn
    have hkey : dbpGo p c store ready finish total off numParts (remaining + 1)
        ((List.range' h qlen).map fun i => (i, store (rangeParamsFor params0 i total p off)))
        { params0 with Range := r } (h + qlen) wc clk
        = ((List.range' (h + qlen) n).map fun i =>
             DBPEv.issue i (rangeParamsFor params0 i total p off))
          ++ [DBPEv.awaited h (max clk (finish h)),
              DBPEv.write h (out h).Body (ready wc)]
          ++ (if ready wc then [] else [DBPEv.waitDrain])
          ++ dbpGo p c store ready finish total off numParts remaining
               ((List.range' (h + 1) (qlen + n - 1)).map fun i =>
                 (i, store (rangeParamsFor params0 i total p off)))
               (if n = 0 then ({ params0 with Range := r } : GetObjectStreamInput)
                 else rangeParamsFor params0 (h + qlen + n - 1) total p off)
               (h + qlen + n) (wc + 1) (max clk (finish h)) := by
      rw [dbpGo_succ]
      simp only [List.length_map, List.length_range', rangeParamsFor_update]
      have happ : ((List.range' h qlen).map fun i =>
            (i, store (rangeParamsFor params0 i total p off)))
          ++ ((List.range' (h + qlen) n).map fun i =>
            (i, store (rangeParamsFor params0 i total p off)))
          = (List.range' h (qlen + n)).map fun i =>
            (i, store (rangeParamsFor params0 i total p off)) := by
        rw [← List.map_append, range'_append_one]
      have hcons : List.range' h (qlen + n) = h :: List.range' (h + 1) (qlen + n - 1) := by
        obtain ⟨m, hm⟩ : ∃ m, qlen + n = m + 1 := ⟨qlen + n - 1, by omega⟩
        rw [hm, List.range'_succ]
        simp
      rw [happ, hcons]
      simp only [List.map_cons, hF]
    have hifeq : (if n = 0 then ({ params0 with Range := r } : GetObjectStreamInput)
        else rangeParamsFor params0 (h + qlen + n - 1) total p off)
        = { params0 with
              Range := if n = 0 then r
                else some (getRangeOfPart ((h + qlen + n - 1 : Nat)) total p off) } := by
      by_cases h0 : n = 0
      · rw [if_pos h0, if_pos h0]
      · rw [if_neg h0, if_neg h0, rangeParamsFor_range]
    rw [hifeq] at hkey
    have hcur : h + qlen + n = h + 1 + (qlen + n - 1) := by omega
    have ih := dbpGo_ok_run p c store ready finish total off numParts params0 out hc hstore
      remaining (h + 1) (qlen + n - 1) (wc + 1) (max clk (finish h))
      (if n = 0 then r else some (getRangeOfPart ((h + qlen + n - 1 : Nat)) total p off))
      (by omega) (by omega) (by omega)
    nth_rewrite 2 [hcur] at hkey
    rw [hkey]
    have hle : (dbpGo p c store ready finish total off numParts remaining
        ((List.range' (h + 1) (qlen + n - 1)).map fun i =>
          (i, store (rangeParamsFor params0 i total p off)))
        { params0 with
            Range := if n = 0 then r
              else some (getRangeOfPart ((h + qlen + n - 1 : Nat)) total p off) }
        (h + 1 + (qlen + n - 1)) (wc + 1) (max clk (finish h))) ≠ [] := by
      intro h0
      rw [h0] at ih
      exact absurd ih.2 (by simp)
    constructor
    · rw [dbpWrites_append, dbpWrites_append, dbpWrites_append, dbpWrites_issues, ih.1]
      have hdw : dbpWrites (if ready wc then ([] : List DBPEv) else [DBPEv.waitDrain]) = [] := by
        cases ready wc <;> rfl
      rw [hdw]
      have hrr : List.range' h (remaining + 1) = h :: List.range' (h + 1) remaining :=
        List.range'_succ h remaining 1
      rw [hrr]
      simp [dbpWrites]
    · rw [List.append_assoc, List.append_assoc, List.getLast?_append_of_ne_nil _ (by simp [hle]),
        List.getLast?_append_of_ne_nil _ (by simp [hle]),
        List.getLast?_append_of_ne_nil _ hle]
      exact ih.2

theorem dbpGo_err_run (p c : Nat) (store : Store) (ready : Nat → Bool) (finish : Nat → Nat)
    (total off numParts : Nat) (params0 : GetObjectStreamInput) (out : Nat → GetObjectOutput)
    (k : Nat) (e : String)
    (hc : 1 ≤ c)
    (hok : ∀ i, i < k → store (rangeParamsFor params0 i total p off) = .ok (out i))
    (herr : store (rangeParamsFor params0 k total p off) = .error e)
    (hk : k < numParts) :
    ∀ remaining h qlen wc clk r, remaining = numParts - h → h + qlen ≤ numParts → qlen ≤ c →
      h ≤ k →
      dbpWrites (dbpGo p c store ready finish total off numParts remaining
          ((List.range' h qlen).map fun i => (i, store (rangeParamsFor params0 i total p off)))
          { params0 with Range := r } (h + qlen) wc clk)
        = (List.range' h (k - h)).map (fun i => (i, (out i).Body))
      ∧ (dbpGo p c store ready finish total off numParts remaining
          ((List.range' h qlen).map fun i => (i, store (rangeParamsFor params0 i total p off)))
          { params0 with Range := r } (h + qlen) wc clk).getLast?
          = some (.errored (.fetch e))
      ∧ DBPEv.ended ∉ (dbpGo p c store ready finish total off numParts remaining
          ((List.range' h qlen).map fun i => (i, store (rangeParamsFor params0 i total p off)))
          { params0 with Range := r } (h + qlen) wc clk)
  | 0, h, qlen, wc, clk, r, hrem, hq, hqc, hhk => by omega
  | remaining + 1, h, qlen, wc, clk, r, hrem, hq, hqc, hhk => by
    have hn1 : 1 ≤ qlen + min (c - qlen) (numParts - (h + qlen)) := by
      rcases Nat.eq_zero_or_pos qlen with hq0 | hq0
      · subst hq0
        have h2 : 1 ≤ min (c - 0) (numParts - (h + 0)) := by
          rw [Nat.le_min]
          omega
        omega
      · omega
    set n := min (c - qlen) (numParts - (h + qlen)) with hn
    have hnoend : ∀ ev ∈ (List.range' (h + qlen) n).map fun i =>
        DBPEv.issue i (rangeParamsFor params0 i total p off), ev ≠ DBPEv.ended := by
      intro ev hev
      rw [List.mem_map] at hev
      obtain ⟨i, _, hi⟩ := hev
      rw [← hi]
      intro hcontra
      cases hcontra
    by_cases hhk2 : h = k
    · subst hhk2
      have hkey : dbpGo p c store ready finish total off numParts (remaining + 1)
          ((List.range' h qlen).map fun i => (i, store (rangeParamsFor params0 i total p off)))
          { params0 with Range := r } (h + qlen) wc clk
          = ((List.range' (h + qlen) n).map fun i =>
               DBPEv.issue i (rangeParamsFor params0 i total p off))
            ++ [DBPEv.awaited h (max clk (finish h)),
                DBPEv.errored (.fetch e)] := by
        rw [dbpGo_succ]
        simp only [List.length_map, List.length_range', rangeParamsFor_update]
        have happ : ((List.range' h qlen).map fun i =>
              (i, store (rangeParamsFor params0 i total p off)))
            ++ ((List.range' (h + qlen) n).map fun i =>
              (i, store (rangeParamsFor params0 i total p off)))
            = (List.range' h (qlen + n)).map fun i =>
              (i, store (rangeParamsFor params0 i total p off)) := by
          rw [← List.map_append, range'_append_one]
        have hcons : List.range' h (qlen + n) = h :: List.range' (h + 1) (qlen + n - 1) := by
          obtain ⟨m, hm⟩ : ∃ m, qlen + n = m + 1 := ⟨qlen + n - 1, by omega⟩
          rw [hm, List.range'_succ]
          simp
        rw [happ, hcons]
        simp only [List.map_cons, herr]
      rw [hkey]
      refine ⟨?_, ?_, ?_⟩
      · rw [dbpWrites_append, dbpWrites_issues]
        simp [dbpWrites]
      · rw [List.getLast?_append_of_ne_nil _ (by simp)]
        rfl
      · rw [List.mem_append]
        rintro (hmem | hmem)
        · exact hnoend _ hmem rfl
        · simp at hmem
      
    · have hhn : h < k := by omega
      have hF : store (rangeParamsFor params0 h total p off) = .ok (out h) := hok h hhn
      have hkey : dbpGo p c store ready finish total off numParts (remaining + 1)
          ((List.range' h qlen).map fun i => (i, store (rangeParamsFor params0 i total p off)))
          { params0 with Range := r } (h + qlen) wc clk
          = ((List.range' (h + qlen) n).map fun i =>
               DBPEv.issue i (rangeParamsFor params0 i total p off))
            ++ [DBPEv.awaited h (max clk (finish h)),
                DBPEv.write h (out h).Body (ready wc)]
            ++ (if ready wc then [] else [DBPEv.waitDrain])
            ++ dbpGo p c store ready finish total off numParts remaining
                 ((List.range' (h + 1) (qlen + n - 1)).map fun i =>
                   (i, store (rangeParamsFor params0 i total p off)))
                 (if n = 0 then ({ params0 with Range := r } : GetObjectStreamInput)
                   else rangeParamsFor params0 (h + qlen + n - 1) total p off)
                 (h + qlen + n) (wc + 1) (max clk (finish h)) := by
        rw [dbpGo_succ]
        simp only [List.length_map, List.length_range', rangeParamsFor_update]
        have happ : ((List.range' h qlen).map fun i =>
              (i, store (rangeParamsFor params0 i total p off)))
            ++ ((List.range' (h + qlen) n).map fun i =>
              (i, store (rangeParamsFor params0 i total p off)))
            = (List.range' h (qlen + n)).map fun i =>
              (i, store (rangeParamsFor params0 i total p off)) := by
          rw [← List.map_append, range'_append_one]
        have hcons : List.range' h (qlen + n) = h :: List.range' (h + 1) (qlen + n - 1) := by
          obtain ⟨m, hm⟩ : ∃ m, qlen + n = m + 1 := ⟨qlen + n - 1, by omega⟩
          rw [hm, List.range'_succ]
          simp
        rw [happ, hcons]
        simp only [List.map_cons, hF]
      have hifeq : (if n = 0 then ({ params0 with Range := r } : GetObjectStreamInput)
          else rangeParamsFor params0 (h + qlen + n - 1) total p off)
          = { params0 with
                Range := if n = 0 then r
                  else some (getRangeOfPart ((h + qlen + n - 1 : Nat)) total p off) } := by
        by_cases h0 : n = 0
        · rw [if_pos h0, if_pos h0]
        · rw [if_neg h0, if_neg h0, rangeParamsFor_range]
      rw [hifeq] at hkey
      have hcur : h + qlen + n = h + 1 + (qlen + n - 1) := by omega
      have ih := dbpGo_err_run p c store ready finish total off numParts params0 out k e
        hc hok herr hk remaining (h + 1) (qlen + n - 1) (wc + 1) (max clk (finish h))
        (if n = 0 then r else some (getRangeOfPart ((h + qlen + n - 1 : Nat)) total p off))
        (by omega) (by omega) (by omega) (by omega)
      nth_rewrite 2 [hcur] at hkey
      rw [hkey]
      have hle : (dbpGo p c store ready finish total off numParts remaining
          ((List.range' (h + 1) (qlen + n - 1)).map fun i =>
            (i, store (rangeParamsFor params0 i total p off)))
          { params0 with
              Range := if n = 0 then r
                else some (getRangeOfPart ((h + qlen + n - 1 : Nat)) total p off) }
          (h + 1 + (qlen + n - 1)) (wc + 1) (max clk (finish h))) ≠ [] := by
        intro h0
        rw [h0] at ih
        exact absurd ih.2.1 (by simp)
      refine ⟨?_, ?_, ?_⟩
      · rw [dbpWrites_append, dbpWrites_append, dbpWrites_append, dbpWrites_issues, ih.1]
        have hdw : dbpWrites (if ready wc then ([] : List DBPEv) else [DBPEv.waitDrain]) = [] := by
          cases ready wc <;> rfl
        rw [hdw]
        have hrr : List.range' h (k - h) = h :: List.range' (h + 1) (k - (h + 1)) := by
          obtain ⟨m, hm⟩ : ∃ m, k - h = m + 1 := ⟨k - h - 1, by omega⟩
          rw [hm, List.range'_succ]
          have : m = k - (h + 1) := by omega
          rw [this]
        rw [hrr]
        simp [dbpWrites]
      · rw [List.append_assoc, List.append_assoc,
          List.getLast?_append_of_ne_nil _ (by simp [hle]),
          List.getLast?_append_of_ne_nil _ (by simp [hle]),
          List.getLast?_append_of_ne_nil _ hle]
        exact ih.2.1
      · rw [List.append_assoc, List.append_assoc, List.mem_append]
        rintro (hmem | hmem)
        · exact hnoend _ hmem rfl
        · rw [List.mem_append] at hmem
          rcases hmem with hmem | hmem
          · simp at hmem
          · rw [List.mem_append] at hmem
            rcases hmem with hmem | hmem
            · rcases Bool.eq_false_or_eq_true (ready wc) with hb | hb <;>
                rw [hb] at hmem <;> simp at hmem
            · exact ih.2.2 hmem

theorem drainDiscipline_cons_issue (i : Nat) (ps : GetObjectStreamInput) (rest : List DBPEv) :
    drainDiscipline (DBPEv.issue i ps :: rest) = drainDiscipline rest := rfl

theorem drainDiscipline_cons_awaited (i t : Nat) (rest : List DBPEv) :
    drainDiscipline (DBPEv.awaited i t :: rest) = drainDiscipline rest := rfl

theorem drainDiscipline_cons_errored (e : MDErr) (rest : List DBPEv) :
    drainDiscipline (DBPEv.errored e :: rest) = drainDiscipline rest := rfl

theorem drainDiscipline_cons_write_true (i : Nat) (b : List Nat) (rest : List DBPEv) :
    drainDiscipline (DBPEv.write i b true :: rest) = drainDiscipline rest := rfl

theorem drainDiscipline_write_false_drain (i : Nat) (b : List Nat) (rest : List DBPEv) :
    drainDiscipline (DBPEv.write i b false :: DBPEv.waitDrain :: rest)
      = drainDiscipline rest := rfl

theorem drainDiscipline_issues_append (l : List Nat) (f : Nat → GetObjectStreamInput)
    (rest : List DBPEv) :
    drainDiscipline ((l.map fun i => DBPEv.issue i (f i)) ++ rest)
      = drainDiscipline rest := by
  induction l with
  | nil => rfl
  | cons a l ih => rw [List.map_cons, List.cons_append, drainDiscipline_cons_issue, ih]

theorem dbpGo_drainDiscipline (p c : Nat) (store : Store) (ready : Nat → Bool)
    (finish : Nat → Nat) (total off numParts : Nat) :
    ∀ remaining queue ps currentPart wc clk,
      drainDiscipline (dbpGo p c store ready finish total off numParts remaining
        queue ps currentPart wc clk) = true
  | 0, _, _, _, _, _ => rfl
  | remaining + 1, queue, ps, currentPart, wc, clk => by
    simp only [dbpGo_succ]
    split
    · rw [drainDiscipline_issues_append, drainDiscipline_cons_errored]
      rfl
    · next x hh res rest heq =>
      split
      · rw [drainDiscipline_issues_append, drainDiscipline_cons_awaited,
          drainDiscipline_cons_errored]
        rfl
      · next _ out =>
        rw [List.append_assoc, List.append_assoc, drainDiscipline_issues_append,
          List.cons_append, List.cons_append, List.nil_append,
          drainDiscipline_cons_awaited]
        by_cases hb : ready wc = true
        · rw [hb, if_pos rfl, List.nil_append, drainDiscipline_cons_write_true]
          exact dbpGo_drainDiscipline p c store ready finish total off numParts
            remaining rest _ _ _ _
        · rw [Bool.not_eq_true] at hb
          rw [hb, if_neg (by simp), List.cons_append, List.nil_append,
            drainDiscipline_write_false_drain]
          exact dbpGo_drainDiscipline p c store ready finish total off numParts
            remaining rest _ _ _ _

theorem scheduleTrace_append (a b : List DBPEv) :
    scheduleTrace (a ++ b) = scheduleTrace a ++ scheduleTrace b :=
  List.filterMap_append a b _

theorem scheduleTrace_cons_awaited (i t : Nat) (l : List DBPEv) :
    scheduleTrace (DBPEv.awaited i t :: l) = DBPEv.awaited i t :: scheduleTrace l := rfl

theorem scheduleTrace_cons_write (i : Nat) (b : List Nat) (f : Bool) (l : List DBPEv) :
    scheduleTrace (DBPEv.write i b f :: l) = DBPEv.write i b true :: scheduleTrace l := rfl

theorem scheduleTrace_drain_if (f : Bool) :
    scheduleTrace (if f then ([] : List DBPEv) else [DBPEv.waitDrain]) = [] := by
  cases f
  · rfl
  · rfl

theorem dbpGo_scheduleTrace (p c : Nat) (store : Store) (ready1 ready2 : Nat → Bool)
    (finish : Nat → Nat) (total off numParts : Nat) :
    ∀ remaining queue ps currentPart wc clk,
      scheduleTrace (dbpGo p c store ready1 finish total off numParts remaining
          queue ps currentPart wc clk)
        = scheduleTrace (dbpGo p c store ready2 finish total off numParts remaining
          queue ps currentPart wc clk)
  | 0, _, _, _, _, _ => rfl
  | remaining + 1, queue, ps, currentPart, wc, clk => by
    simp only [dbpGo_succ]
    split
    · rfl
    · next x hh res rest heq =>
      split
      · rfl
      · next _ out =>
        simp only [List.append_assoc, scheduleTrace_append, List.cons_append,
          List.nil_append, scheduleTrace_cons_awaited, scheduleTrace_cons_write,
          scheduleTrace_drain_if]
        rw [dbpGo_scheduleTrace p c store ready1 ready2 finish total off numParts
          remaining rest _ _ _ _]

theorem dbpGo_issue_mem (p c : Nat) (store : Store) (ready : Nat → Bool)
    (finish : Nat → Nat) (total off numParts : Nat) (params0 : GetObjectStreamInput) :
    ∀ remaining queue r currentPart wc clk i ps',
      DBPEv.issue i ps' ∈ dbpGo p c store ready finish total off numParts remaining
        queue { params0 with Range := r } currentPart wc clk →
      ps' = rangeParamsFor params0 i total p off
  | 0, queue, r, currentPart, wc, clk, i, ps', hmem => by
    rw [dbpGo_zero] at hmem
    simp at hmem
  | remaining + 1, queue, r, currentPart, wc, clk, i, ps', hmem => by
    simp only [dbpGo_succ, rangeParamsFor_update] at hmem
    split at hmem
    · rw [List.mem_append] at hmem
      rcases hmem with hmem | hmem
      · rw [List.mem_map] at hmem
        obtain ⟨j, _, hj⟩ := hmem
        have := DBPEv.issue.inj hj
        rw [← this.1, this.2.symm]
      · simp at hmem
    · next x hh res rest heq =>
      split at hmem
      · rw [List.mem_append] at hmem
        rcases hmem with hmem | hmem
        · rw [List.mem_map] at hmem
          obtain ⟨j, _, hj⟩ := hmem
          have := DBPEv.issue.inj hj
          rw [← this.1, this.2.symm]
        · simp at hmem
      · next _ out =>
        rw [List.append_assoc, List.append_assoc, List.mem_append] at hmem
        rcases hmem with hmem | hmem
        · rw [List.mem_map] at hmem
          obtain ⟨j, _, hj⟩ := hmem
          have := DBPEv.issue.inj hj
          rw [← this.1, this.2.symm]
        · rw [List.cons_append, List.cons_append, List.nil_append, List.mem_cons,
            List.mem_cons, List.mem_append] at hmem
          rcases hmem with hmem | hmem | hmem | hmem
          · cases hmem
          · cases hmem
          · rcases Bool.eq_false_or_eq_true (ready wc) with hb | hb <;>
              rw [hb] at hmem <;> simp at hmem
          · have hifeq : (if min (c - queue.length) (numParts - currentPart) = 0 then
                ({ params0 with Range := r } : GetObjectStreamInput)
              else rangeParamsFor params0
                (currentPart + min (c - queue.length) (numParts - currentPart) - 1)
                total p off)
              = { params0 with
                    Range := if min (c - queue.length) (numParts - currentPart) = 0 then r
                      else some (getRangeOfPart
                        ((currentPart + min (c - queue.length) (numParts - currentPart) - 1
                          : Nat)) total p off) } := by
              by_cases h0 : min (c - queue.length) (numParts - currentPart) = 0
              · rw [if_pos h0, if_pos h0]
              · rw [if_neg h0, if_neg h0, rangeParamsFor_range]
            rw [hifeq] at hmem
            exact dbpGo_issue_mem p c store ready finish total off numParts params0
              remaining rest _ _ _ _ i ps' hmem

theorem slices_flatten (source : Nat → Nat) (total p off : Nat) (hp : 1 ≤ p) :
    ∀ k, k ≤ numPartsOf total p →
      ((List.range' 0 k).map fun i => partSlice source i total p off).flatten
        = (List.range' off (min total (k * p))).map source := by
  intro k
  induction k with
  | zero => simp
  | succ k ih =>
    intro hk
    have hklt : k < numPartsOf total p := hk
    have hkp : p * k < total := (lt_numPartsOf_iff hp).mp hklt
    have hkp2 : k * p < total := by
      rw [Nat.mul_comm]
      exact hkp
    have hcat : List.range' 0 (k + 1) = List.range' 0 k ++ [k] := by
      have h := @List.range'_concat 1 0 k
      simpa using h
    rw [hcat, List.map_append, List.flatten_append, ih (by omega)]
    simp only [List.map_cons, List.map_nil, List.flatten_cons, List.flatten_nil,
      List.append_nil]
    have hmin1 : min total (k * p) = k * p := Nat.min_eq_right (by omega)
    rw [hmin1, partSlice, partStartByteN, partEndByteN]
    have harg : min total ((k + 1) * p) + off - (k * p + off)
        = min total ((k + 1) * p) - k * p := by omega
    rw [harg]
    have hco : k * p + off = off + k * p := by omega
    rw [hco, ← List.map_append, range'_append_one]
    have hle2 : k * p ≤ min total ((k + 1) * p) := by
      rw [Nat.le_min]
      refine ⟨by omega, Nat.mul_le_mul_right p (by omega)⟩
    have : k * p + (min total ((k + 1) * p) - k * p) = min total ((k + 1) * p) := by
      omega
    rw [this]

theorem downloadByParts_ok (p c : Nat) (store : Store) (ready : Nat → Bool)
    (finish : Nat → Nat) (params0 : GetObjectStreamInput) (total off s : Nat)
    (out : Nat → GetObjectOutput)
    (hc : 1 ≤ c)
    (hstore : ∀ i, i < numPartsOf total p →
      store (rangeParamsFor params0 i total p off) = .ok (out i)) :
    dbpWrites (downloadByParts p c store ready finish params0 total off s)
      = (List.range' s (numPartsOf total p - s)).map (fun i => (i, (out i).Body))
    ∧ (downloadByParts p c store ready finish params0 total off s).getLast?
        = some .ended := by
  by_cases hs : s ≤ numPartsOf total p
  · exact dbpGo_ok_run p c store ready finish total off (numPartsOf total p) params0 out
      hc hstore (numPartsOf total p - s) s 0 0 0 params0.Range rfl (by omega) (by omega)
  · have h0 : numPartsOf total p - s = 0 := by omega
    rw [downloadByParts, h0, dbpGo_zero]
    exact ⟨rfl, rfl⟩

theorem downloadByParts_err (p c : Nat) (store : Store) (ready : Nat → Bool)
    (finish : Nat → Nat) (params0 : GetObjectStreamInput) (total off s : Nat)
    (out : Nat → GetObjectOutput) (k : Nat) (e : String)
    (hc : 1 ≤ c)
    (hok : ∀ i, i < k → store (rangeParamsFor params0 i total p off) = .ok (out i))
    (herr : store (rangeParamsFor params0 k total p off) = .error e)
    (hsk : s ≤ k) (hk : k < numPartsOf total p) :
    dbpWrites (downloadByParts p c store ready finish params0 total off s)
      = (List.range' s (k - s)).map (fun i => (i, (out i).Body))
    ∧ (downloadByParts p c store ready finish params0 total off s).getLast?
        = some (.errored (.fetch e))
    ∧ DBPEv.ended ∉ downloadByParts p c store ready finish params0 total off s :=
  dbpGo_err_run p c store ready finish total off (numPartsOf total p) params0 out k e
    hc hok herr hk (numPartsOf total p - s) s 0 0 0 params0.Range rfl (by omega)
    (by omega) hsk

theorem digits_dash_inj : ∀ (a c b d : List Char),
    a.all isDigitChar = true → c.all isDigitChar = true →
    a ++ '-' :: b = c ++ '-' :: d → a = c ∧ b = d
  | [], [], b, d, _, _, h => ⟨rfl, by simpa using h⟩
  | [], x :: c, b, d, _, hc, h => by
    rw [List.all_cons, Bool.and_eq_true] at hc
    rw [List.nil_append, List.cons_append] at h
    have hx := List.cons.inj h
    exfalso
    rw [← hx.1] at hc
    exact absurd hc.1 (by decide)
  | x :: a, [], b, d, ha, _, h => by
    rw [List.all_cons, Bool.and_eq_true] at ha
    rw [List.cons_append, List.nil_append] at h
    have hx := List.cons.inj h
    exfalso
    rw [hx.1] at ha
    exact absurd ha.1 (by decide)
  | x :: a, y :: c, b, d, ha, hc, h => by
    rw [List.all_cons, Bool.and_eq_true] at ha
    rw [List.all_cons, Bool.and_eq_true] at hc
    rw [List.cons_append, List.cons_append] at h
    have hx := List.cons.inj h
    have ih := digits_dash_inj a c b d ha.2 hc.2 hx.2
    exact ⟨by rw [hx.1, ih.1], ih.2⟩

theorem intToString_nonneg {m : Int} (hm : 0 ≤ m) : intToString m = natToString m.toNat := by
  rw [intToString, if_neg (by omega)]

theorem intToString_neg_data {m : Int} (hm : m < 0) :
    (intToString m).data = '-' :: (natToString (-m).toNat).data := by
  rw [intToString, if_pos hm]
  rfl

theorem getRangeOfPart_def (partNum totalObjectLength maxPartSize byteOffset : Int) :
    getRangeOfPart partNum totalObjectLength maxPartSize byteOffset
      = "bytes=" ++ intToString (partNum * maxPartSize + byteOffset) ++ "-"
        ++ intToString (min totalObjectLength ((partNum + 1) * maxPartSize)
            + byteOffset - 1) := rfl

/-- The bootstrap sub-range string computed for a client range is never the
client's own range string: its inclusive end encodes
`min(length, partSize) + start − 1`, which always differs from the client's
end bound. -/
theorem getRangeOfPart_zero_ne (rs : String) (ri : RangeInfo) (p : Nat)
    (h : getInformationFromRange rs = .ok ri) :
    getRangeOfPart 0 ri.length p ri.startByte ≠ rs := by
  obtain ⟨d1, d2, h1, h2, ha1, ha2, hdata, hri⟩ := getInformationFromRange_decomp_of_ok h
  intro heqs
  have hdd := congrArg String.data heqs
  rw [getRangeOfPart_def] at hdd
  rw [String.data_append, String.data_append, String.data_append] at hdd
  rw [hdata] at hdd
  have hpre : ("bytes=").data = ['b', 'y', 't', 'e', 's', '='] := rfl
  have hdash : ("-").data = ['-'] := rfl
  rw [hpre, hdash] at hdd
  have hstart : (0 : Int) * (p : Int) + (ri.startByte : Int) = (ri.startByte : Int) := by ring
  rw [hstart] at hdd
  have hsnn : (0 : Int) ≤ (ri.startByte : Int) := Int.natCast_nonneg _
  rw [intToString_nonneg hsnn] at hdd
  have hgrp : ['b', 'y', 't', 'e', 's', '='] ++ (natToString (ri.startByte : Int).toNat).data
      ++ ['-'] ++ (intToString (min ri.length ((0 + 1) * (p : Int))
            + (ri.startByte : Int) - 1)).data
      = ['b', 'y', 't', 'e', 's', '='] ++ ((natToString (ri.startByte : Int).toNat).data
      ++ '-' :: (intToString (min ri.length ((0 + 1) * (p : Int))
            + (ri.startByte : Int) - 1)).data) := by
    simp [List.append_assoc]
  rw [hgrp] at hdd
  have hcancel := List.append_cancel_left hdd
  set w : Int := min ri.length ((0 + 1) * (p : Int)) + (ri.startByte : Int) - 1 with hw
  have hd1digits := (natToString_digits (ri.startByte : Int).toNat).1
  by_cases hwn : w < 0
  · rw [intToString_neg_data hwn] at hcancel
    have hinj := digits_dash_inj _ _ _ _ hd1digits ha1 hcancel
    have hd2head := hinj.2
    rw [← hd2head] at ha2
    exact absurd (by rw [List.all_cons, Bool.and_eq_true] at ha2; exact ha2.1) (by decide)
  · push_neg at hwn
    rw [intToString_nonneg hwn] at hcancel
    have hinj := digits_dash_inj _ _ _ _ hd1digits ha1 hcancel
    have hval : digitsToNat (natToString w.toNat).data = w.toNat :=
      (natToString_digits w.toNat).2.1
    rw [hinj.2] at hval
    have he : digitsToNat d2 = ri.endByte := by rw [hri]
    have hlen : ri.length = (ri.endByte : Int) - (ri.startByte : Int) := by rw [hri]
    rw [he] at hval
    have hwe : w = (ri.endByte : Int) := by omega
    rw [hw, hlen] at hwe
    have hmin := min_le_left ((ri.endByte : Int) - (ri.startByte : Int)) ((0 + 1) * (p : Int))
    have hmin2 := min_le_right ((ri.endByte : Int) - (ri.startByte : Int)) ((0 + 1) * (p : Int))
    rcases le_total ((ri.endByte : Int) - (ri.startByte : Int)) ((0 + 1) * (p : Int)) with
        hm | hm
    · rw [min_eq_left hm] at hwe
      omega
    · rw [min_eq_right hm] at hwe
      have hpv : (0 + 1) * (p : Int) = (p : Int) := by ring
      rw [hpv] at hwe hm
      omega

/-! ### Evaluation lemmas for getObjectStream -/

theorem getObjectStream_clientRange_run
    (p c : Nat) (store : Store) (ready : Nat → Bool) (finish : Nat → Nat)
    (params : GetObjectStreamInput) (rs : String) (ri : RangeInfo) (out : GetObjectOutput)
    (hB : params.Bucket ≠ "") (hK : params.Key ≠ "")
    (hR : params.Range = some rs)
    (hparse : getInformationFromRange rs = .ok ri)
    (hPN : numTruthy params.PartNumber = false)
    (hlen : ri.length ≠ 0)
    (hstore : store { params with
        Range := some (getRangeOfPart 0 ri.length p ri.startByte) } = .ok out) :
    getObjectStream p c store ready finish params =
      .ok { mimeType := out.ContentType
            contentLength := some ri.length
            bootstrapParams := { params with
              Range := some (getRangeOfPart 0 ri.length p ri.startByte) }
            bootstrapBody := out.Body
            pipeline :=
              if jsGtNat (some ri.length) p then
                some (downloadByParts p c store ready finish
                  { params with Range := some (getRangeOfPart 0 ri.length p ri.startByte) }
                  ri.length.toNat ri.startByte 1)
              else none } := by
  have hrs : rs ≠ "" := getInformationFromRange_ne_empty hparse
  have hcond : (!(rs == "")) = true := by simp [hrs]
  have hfalsy : ((ri.length == 0) : Bool) = false := by simp [hlen]
  rw [getObjectStream, if_neg (by push_neg; exact ⟨hB, hK⟩)]
  simp only [hR, hPN, Option.getD_some, hparse, strTruthy, Bool.not_false, Bool.and_true,
    hcond, if_true, hstore, jsFalsyNum, hfalsy, if_false, Bool.not_false, Bool.and_true]
  rfl

theorem getObjectStream_partNumber_truthy_run
    (p c : Nat) (store : Store) (ready : Nat → Bool) (finish : Nat → Nat)
    (params : GetObjectStreamInput) (out : GetObjectOutput)
    (hB : params.Bucket ≠ "") (hK : params.Key ≠ "")
    (hPN : numTruthy params.PartNumber = true)
    (hstore : store params = .ok out) :
    getObjectStream p c store ready finish params =
      (match out.ContentRange with
       | none => .error .contentRangeUndefined
       | some cr =>
         .ok { mimeType := out.ContentType
               contentLength := parseTotalFromContentRange cr
               bootstrapParams := params
               bootstrapBody := out.Body
               pipeline := none }) := by
  rw [getObjectStream, if_neg (by push_neg; exact ⟨hB, hK⟩)]
  simp only [hPN, Bool.not_true, Bool.and_false, Bool.false_eq_true, if_false, hstore,
    jsFalsyNum, if_true]
  match hcr : out.ContentRange with
  | none => rfl
  | some cr => rfl

theorem getObjectStream_noRange_run
    (p c : Nat) (store : Store) (ready : Nat → Bool) (finish : Nat → Nat)
    (params : GetObjectStreamInput) (out : GetObjectOutput)
    (hB : params.Bucket ≠ "") (hK : params.Key ≠ "")
    (hR : strTruthy params.Range = false)
    (hPN : numTruthy params.PartNumber = false)
    (hstore : store { params with
        Range := some ("bytes=0-" ++ intToString ((p : Int) - 1)) } = .ok out) :
    getObjectStream p c store ready finish params =
      (match out.ContentRange with
       | none => .error .contentRangeUndefined
       | some cr =>
         .ok { mimeType := out.ContentType
               contentLength := parseTotalFromContentRange cr
               bootstrapParams := { params with
                 Range := some ("bytes=0-" ++ intToString ((p : Int) - 1)) }
               bootstrapBody := out.Body
               pipeline :=
                 if jsGtNat (parseTotalFromContentRange cr) p then
                   some (downloadByParts p c store ready finish
                     { params with
                       Range := some ("bytes=0-" ++ intToString ((p : Int) - 1)) }
                     ((parseTotalFromContentRange cr).getD 0).toNat 0 1)
                 else none }) := by
  rw [getObjectStream, if_neg (by push_neg; exact ⟨hB, hK⟩)]
  simp only [hR, hPN, Bool.false_and, Bool.not_false, Bool.false_eq_true, if_false, if_true,
    hstore, jsFalsyNum, Bool.and_true]
  match hcr : out.ContentRange with
  | none => rfl
  | some cr => rfl

theorem bytes_prefix_ne_empty (t : String) : ("bytes=0-" ++ t) ≠ "" := by
  intro h
  have := congrArg String.data h
  rw [String.data_append] at this
  exact absurd this (by simp)

/-- Inversion of a successful `getObjectStream` call whose request has a
falsy part number: the bootstrap parameters are the caller's parameters
with `Range` overwritten by a string different from the caller's `Range`,
and any pipeline is `downloadByParts` started from part 1 on those mutated
parameters. -/
theorem getObjectStream_ok_inversion (p c : Nat) (store : Store) (ready : Nat → Bool)
    (finish : Nat → Nat) (params : GetObjectStreamInput) (res : StreamResult)
    (hPN : numTruthy params.PartNumber = false)
    (hrun : getObjectStream p c store ready finish params = .ok res) :
    ∃ rNew total2 off2,
      res.bootstrapParams = { params with Range := some rNew } ∧
      some rNew ≠ params.Range ∧
      (res.pipeline = none ∨
        res.pipeline = some (downloadByParts p c store ready finish
          { params with Range := some rNew } total2 off2 1)) := by
  rw [getObjectStream] at hrun
  split at hrun
  · exact absurd hrun (by simp)
  · by_cases hRt : strTruthy params.Range = true
    · obtain ⟨rs, hrs⟩ : ∃ rs, params.Range = some rs := by
        cases hR : params.Range with
        | none => rw [hR, strTruthy] at hRt; exact absurd hRt (by simp)
        | some rs => exact ⟨rs, rfl⟩
      have hRt' : strTruthy (some rs) = true := by rw [← hrs]; exact hRt
      simp only [hrs, Option.getD_some, hRt', hPN, Bool.not_false, Bool.and_true,
        if_true] at hrun
      split at hrun
      · exact absurd hrun (by simp)
      · next cl off ps heq =>
        split at heq
        · exact absurd heq (by simp)
        · next ri heqp =>
          have hinj := Except.ok.inj heq
          have hcl : some ri.length = cl := congrArg Prod.fst hinj
          have hoff : some ri.startByte = off := congrArg (fun x => x.2.1) hinj
          have hps : ({ params with
              Range := some (getRangeOfPart 0 ri.length p ri.startByte) }
              : GetObjectStreamInput) = ps := congrArg (fun x => x.2.2) hinj
          rw [← hps, ← hcl, ← hoff] at hrun
          split at hrun
          · exact absurd hrun (by simp)
          · next out heqout =>
            split at hrun
            · exact absurd hrun (by simp)
            · next cl2 heqcl =>
              have hres := Except.ok.inj hrun
              refine ⟨getRangeOfPart 0 ri.length p ri.startByte,
                (cl2.getD 0).toNat, ((some ri.startByte : Option Nat).getD 0), ?_, ?_, ?_⟩
              · rw [← hres]
              · rw [hrs]
                intro hcontra
                exact getRangeOfPart_zero_ne rs ri p heqp (Option.some.inj hcontra)
              · rw [← hres]
                by_cases hgt : (jsGtNat cl2 p
                    && !(numTruthy ({ params with
                      Range := some (getRangeOfPart 0 ri.length p ri.startByte) }
                      : GetObjectStreamInput).PartNumber)) = true
                · right
                  simp only [hgt, if_true]
                · left
                  simp only [Bool.not_eq_true] at hgt
                  simp only [hgt, Bool.false_eq_true, if_false]
    · rw [Bool.not_eq_true] at hRt
      simp only [hRt, hPN, Bool.false_and, Bool.false_eq_true, if_false, Bool.not_false,
        if_true] at hrun
      split at hrun
      · exact absurd hrun (by simp)
      · next out heqout =>
        split at hrun
        · exact absurd hrun (by simp)
        · next cl heqcl =>
          have hres := Except.ok.inj hrun
          refine ⟨"bytes=0-" ++ intToString ((p : Int) - 1),
            (cl.getD 0).toNat, ((none : Option Nat).getD 0), ?_, ?_, ?_⟩
          · rw [← hres]
          · cases hR : params.Range with
            | none => simp
            | some r0 =>
              rw [hR, strTruthy] at hRt
              have hr0 : r0 = "" := by
                by_contra hne
                simp [hne] at hRt
              rw [hr0]
              intro hcontra
              exact bytes_prefix_ne_empty _ (Option.some.inj hcontra)
          · rw [← hres]
            by_cases hgt : (jsGtNat cl p && true) = true
            · right
              simp only [hgt, if_true]
            · left
              simp only [Bool.not_eq_true] at hgt
              simp only [hgt, Bool.false_eq_true, if_false]

theorem getObjectStream_clientRange_zeroLen_noCR
    (p c : Nat) (store : Store) (ready : Nat → Bool) (finish : Nat → Nat)
    (params : GetObjectStreamInput) (rs : String) (ri : RangeInfo) (out : GetObjectOutput)
    (hB : params.Bucket ≠ "") (hK : params.Key ≠ "")
    (hR : params.Range = some rs)
    (hparse : getInformationFromRange rs = .ok ri)
    (hPN : numTruthy params.PartNumber = false)
    (hlen : ri.length = 0)
    (hstore : store { params with
        Range := some (getRangeOfPart 0 ri.length p ri.startByte) } = .ok out)
    (hcr : out.ContentRange = none) :
    getObjectStream p c store ready finish params = .error .contentRangeUndefined := by
  have hrs : rs ≠ "" := getInformationFromRange_ne_empty hparse
  have hcond : (!(rs == "")) = true := by simp [hrs]
  have hfalsy : ((ri.length == 0) : Bool) = true := by simp [hlen]
  rw [getObjectStream, if_neg (by push_neg; exact ⟨hB, hK⟩)]
  simp only [hR, hPN, Option.getD_some, hparse, strTruthy, Bool.not_false, Bool.and_true,
    hcond, if_true, hstore, jsFalsyNum, hfalsy, hcr]

/-! ## Claim theorems -/

/-- C1: for every positive concurrency and part size, any byte offset, any
starting part, and every completion-time assignment `finish` and stream
readiness behaviour `ready` (completion order affects only the recorded
await times, never the queue order — delivery always awaits the FIFO head),
`downloadByParts` writes exactly the payloads of parts
`startingPart .. numParts − 1`, each exactly once and in strictly ascending
part-index order (the write list is literally the ascending index range),
and then signals normal end-of-stream. For `maxPartSize = 0` the JavaScript
`Math.ceil` yields `Infinity` and the loop never terminates; the hypothesis
`1 ≤ maxPartSize` (enforced by the constructor) confines the statement to
the faithful domain. -/
theorem downloadByParts_fifo_in_order
    (p c total off s : Nat) (store : Store) (ready : Nat → Bool) (finish : Nat → Nat)
    (params : GetObjectStreamInput) (out : Nat → GetObjectOutput)
    (hp : 1 ≤ p) (hc : 1 ≤ c)
    (hstore : ∀ i, i < numPartsOf total p →
      store (rangeParamsFor params i total p off) = .ok (out i)) :
    dbpWrites (downloadByParts p c store ready finish params total off s)
      = (List.range' s (numPartsOf total p - s)).map (fun i => (i, (out i).Body))
    ∧ (downloadByParts p c store ready finish params total off s).getLast?
        = some .ended :=
  downloadByParts_ok p c store ready finish params total off s out hc hstore

def c1Store : Store := fun ps => .ok ⟨[(ps.Range.getD ("")).length], none, none⟩

def c1Params : GetObjectStreamInput := ⟨"bucket", "key", none, none⟩

def c1Out (i : Nat) : GetObjectOutput := ⟨[(getRangeOfPart i 25 10 0).length], none, none⟩

theorem downloadByParts_fifo_in_order_witness :
    (1 ≤ 10 ∧ 1 ≤ 3) ∧
    dbpWrites (downloadByParts 10 3 c1Store (fun _ => true) (fun _ => 0) c1Params 25 0 0)
      = [(0, [9]), (1, [11]), (2, [11])]
    ∧ (downloadByParts 10 3 c1Store (fun _ => true) (fun _ => 0) c1Params 25 0 0).getLast?
        = some .ended := by
  have h := downloadByParts_fifo_in_order 10 3 25 0 0 c1Store (fun _ => true) (fun _ => 0)
    c1Params c1Out (by decide) (by decide) (fun i _ => rfl)
  exact ⟨⟨by decide, by decide⟩, h.1.trans (by decide), h.2⟩

/-- C7: if part `k`'s fetch is the first to fail, `downloadByParts` writes
exactly the payloads of parts with index below `k` (from `startingPart`,
that is `k − startingPart` complete parts — `k − 1` parts for the pipeline
started at part 1 by `getObjectStream`), then emits the failure on the sink
as its final action, writes no result of any later-issued fetch, and never
signals normal end-of-stream. -/
theorem downloadByParts_fail_stops
    (p c total off s k : Nat) (store : Store) (ready : Nat → Bool) (finish : Nat → Nat)
    (params : GetObjectStreamInput) (out : Nat → GetObjectOutput) (e : String)
    (hp : 1 ≤ p) (hc : 1 ≤ c) (hsk : s ≤ k) (hk : k < numPartsOf total p)
    (hok : ∀ i, i < k → store (rangeParamsFor params i total p off) = .ok (out i))
    (herr : store (rangeParamsFor params k total p off) = .error e) :
    dbpWrites (downloadByParts p c store ready finish params total off s)
      = (List.range' s (k - s)).map (fun i => (i, (out i).Body))
    ∧ (dbpWrites (downloadByParts p c store ready finish params total off s)).length = k - s
    ∧ (downloadByParts p c store ready finish params total off s).getLast?
        = some (.errored (.fetch e))
    ∧ DBPEv.ended ∉ downloadByParts p c store ready finish params total off s := by
  have h := downloadByParts_err p c store ready finish params total off s out k e hc hok
    herr hsk hk
  refine ⟨h.1, ?_, h.2.1, h.2.2⟩
  rw [h.1]
  simp

def c7Store : Store := fun ps =>
  match getInformationFromRange (ps.Range.getD ("")) with
  | .ok ri => if 20 ≤ ri.startByte then .error ("network failure")
      else .ok ⟨[ri.startByte], none, none⟩
  | .error e => .error e

def c7Params : GetObjectStreamInput := ⟨"bucket", "key", none, none⟩

def c7Out (i : Nat) : GetObjectOutput := ⟨[i * 10], none, none⟩

theorem downloadByParts_fail_stops_witness :
    dbpWrites (downloadByParts 10 2 c7Store (fun _ => true) (fun _ => 0) c7Params 50 0 0)
      = [(0, [0]), (1, [10])]
    ∧ (downloadByParts 10 2 c7Store (fun _ => true) (fun _ => 0) c7Params 50 0 0).getLast?
        = some (.errored (.fetch ("network failure")))
    ∧ DBPEv.ended ∉ downloadByParts 10 2 c7Store (fun _ => true) (fun _ => 0) c7Params 50 0 0
    := by
  have h := downloadByParts_fail_stops 10 2 50 0 0 2 c7Store (fun _ => true) (fun _ => 0)
    c7Params c7Out ("network failure") (by decide) (by decide) (by decide) (by decide)
    (by decide) (by decide)
  exact ⟨h.1.trans (by decide), h.2.2.1, h.2.2.2⟩

/-- C8: backpressure discipline of the scheduler. First conjunct: in every
trace of `downloadByParts`, a write whose readiness result is `false` is
followed immediately by exactly one drain wait, and drain waits occur
nowhere else — so between a not-ready write and its drain wait no fetch is
issued and nothing is delivered. Second conjunct: the schedule (fetches
issued with their parameters, awaited heads, delivered payloads, queue
evolution, and the terminal event) is identical for every readiness
behaviour of the sink — after the single wait the loop resumes from the
next part with its state intact, and the already-issued fetches still
queued are consumed exactly as they would have been without the
suspension. -/
theorem downloadByParts_backpressure
    (p c total off s : Nat) (store : Store) (ready altReady : Nat → Bool)
    (finish : Nat → Nat) (params : GetObjectStreamInput) :
    drainDiscipline (downloadByParts p c store ready finish params total off s) = true
    ∧ scheduleTrace (downloadByParts p c store ready finish params total off s)
        = scheduleTrace (downloadByParts p c store altReady finish params total off s) :=
  ⟨dbpGo_drainDiscipline p c store ready finish total off (numPartsOf total p) _ _ _ _ _ _,
   dbpGo_scheduleTrace p c store ready altReady finish total off (numPartsOf total p)
     _ _ _ _ _ _⟩

/-- C4 (amended): `getInformationFromRange` succeeds on exactly the strings
of the syntactic form `bytes=<digits>-<digits>` (both digit groups
non-empty) — with **no** requirement that `start ≤ end`: the source regex
`^bytes=([0-9]+)-([0-9]+)$` checks syntax only, so reversed bounds are
accepted (see the counterexample) and yield `length = endByte − startByte`,
which is then negative. Malformed syntax and non-numeric bounds are
rejected with the invalid-range error. -/
theorem getInformationFromRange_accepts_iff (s : String) :
    ((∃ ri, getInformationFromRange s = .ok ri) ↔ rangeStringWellFormed s)
    ∧ (∀ ri, getInformationFromRange s = .ok ri →
        ri.length = (ri.endByte : Int) - (ri.startByte : Int)) := by
  constructor
  · constructor
    · rintro ⟨ri, hri⟩
      obtain ⟨d1, d2, h1, h2, ha1, ha2, hdata, _⟩ :=
        getInformationFromRange_decomp_of_ok hri
      exact ⟨d1, d2, h1, h2, ha1, ha2, hdata⟩
    · rintro ⟨d1, d2, h1, h2, ha1, ha2, hdata⟩
      exact ⟨_, getInformationFromRange_ok_of_decomp h1 h2 ha1 ha2 hdata⟩
  · intro ri hri
    obtain ⟨d1, d2, _, _, _, _, _, hval⟩ := getInformationFromRange_decomp_of_ok hri
    rw [hval]

theorem getInformationFromRange_accepts_iff_witness :
    (∃ ri, getInformationFromRange "bytes=7-19" = .ok ri)
    ∧ (⟨7, 19, 12⟩ : RangeInfo).length = ((⟨7, 19, 12⟩ : RangeInfo).endByte : Int)
        - ((⟨7, 19, 12⟩ : RangeInfo).startByte : Int) :=
  ⟨(getInformationFromRange_accepts_iff "bytes=7-19").1.mpr
      ⟨['7'], ['1', '9'], by decide, by decide, by decide, by decide, by decide⟩,
   (getInformationFromRange_accepts_iff "bytes=7-19").2 ⟨7, 19, 12⟩ (by decide)⟩

/-- C4 counterexample: the claim states `getInformationFromRange` throws on
reversed bounds (`start > end`); in fact `bytes=199-100` is accepted and
returns `length = −99`. -/
theorem getInformationFromRange_reversed_accepted :
    getInformationFromRange "bytes=199-100" = .ok ⟨199, 100, -99⟩
    ∧ ¬ (199 : Nat) ≤ 100 :=
  ⟨by decide, by decide⟩

/-- C5 (amended): for every **positive** part size, the per-part byte
intervals of `getRangeOfPart` over `partIndex = 0 .. ⌈totalLength /
partSize⌉ − 1` cover each byte of `[offsetBias, offsetBias + totalLength)`
exactly once: every such byte lies in a part of the index range, parts are
pairwise disjoint (a byte determines its part index), and consecutive parts
are contiguous. The claim's quantifier `partSize ≥ 0` is too broad: at
`partSize = 0` every part's range is empty and nothing is covered (see the
counterexample), so positivity is required. -/
theorem getRangeOfPart_parts_cover (total p off : Nat) (hp : 1 ≤ p) :
    (∀ b : Nat, (∃ i, i < numPartsOf total p ∧ b ∈ partByteSet i total p off) ↔
       off ≤ b ∧ b < off + total)
  ∧ (∀ i j b : Nat, b ∈ partByteSet i total p off → b ∈ partByteSet j total p off →
       i = j)
  ∧ (∀ i : Nat, i + 1 < numPartsOf total p →
       partStartByteN (i + 1) p off = partEndByteN i total p off) :=
  partByteSet_partition total p off hp

theorem getRangeOfPart_parts_cover_witness :
    (1 ≤ 10) ∧
    ((∀ b : Nat, (∃ i, i < numPartsOf 25 10 ∧ b ∈ partByteSet i 25 10 5) ↔
        5 ≤ b ∧ b < 5 + 25)
     ∧ (∀ i j b : Nat, b ∈ partByteSet i 25 10 5 → b ∈ partByteSet j 25 10 5 → i = j)
     ∧ (∀ i : Nat, i + 1 < numPartsOf 25 10 →
         partStartByteN (i + 1) 10 5 = partEndByteN i 25 10 5)) :=
  ⟨by decide, getRangeOfPart_parts_cover 25 10 5 (by decide)⟩

/-- C5 counterexample: at `partSize = 0` (allowed by the claim's
`partSize ≥ 0`), `totalLength = 1`, `offsetBias = 0`, byte `0` lies in the
interval `[0, 1)` that the claim says is covered, yet no part index at all
covers it: every part's byte range is empty, since its exclusive end
`min 1 ((i+1)·0) + 0 = 0` never exceeds its start. -/
theorem getRangeOfPart_zero_partSize_uncovered :
    (0 ∈ Finset.Ico (0 : Nat) (0 + 1)) ∧ ¬ ∃ i : Nat, 0 ∈ partByteSet i 1 0 0 := by
  constructor
  · decide
  · rintro ⟨i, hi⟩
    rw [mem_partByteSet_iff] at hi
    omega

/-- C3 (amended): `getObjectStream` performs no mutual-exclusion validation
of `Range` and `PartNumber`. When both are set (truthy), neither branch of
the parameter preparation runs: the request object is forwarded to the
store **unchanged, with both fields still set**, before any local check. If
the store accepts the request (returning a `ContentRange`), the call
succeeds and a stream is produced; the only rejection this path can produce
comes from the store itself, not from a local invalid-input error. -/
theorem getObjectStream_bothSet_forwarded
    (p c : Nat) (store : Store) (ready : Nat → Bool) (finish : Nat → Nat)
    (params : GetObjectStreamInput) (out : GetObjectOutput) (cr : String)
    (hB : params.Bucket ≠ "") (hK : params.Key ≠ "")
    (hR : strTruthy params.Range = true) (hPN : numTruthy params.PartNumber = true)
    (hstore : store params = .ok out) (hcr : out.ContentRange = some cr) :
    getObjectStream p c store ready finish params =
      .ok { mimeType := out.ContentType
            contentLength := parseTotalFromContentRange cr
            bootstrapParams := params
            bootstrapBody := out.Body
            pipeline := none } := by
  rw [getObjectStream_partNumber_truthy_run p c store ready finish params out hB hK hPN
    hstore, hcr]

def c3Store : Store := fun _ => .ok ⟨[5], some ("bytes=0-9/64"), some ("text")⟩

def c3Params : GetObjectStreamInput := ⟨"bucket", "key", some ("bytes=3-9"), some 2⟩

theorem getObjectStream_bothSet_forwarded_witness :
    getObjectStream 10 1 c3Store (fun _ => true) (fun _ => 0) c3Params
      = .ok ⟨some ("text"), some 64, c3Params, [5], none⟩ := by
  have h := getObjectStream_bothSet_forwarded 10 1 c3Store (fun _ => true) (fun _ => 0)
    c3Params ⟨[5], some ("bytes=0-9/64"), some ("text")⟩ ("bytes=0-9/64")
    (by decide) (by decide) (by decide) (by decide) rfl rfl
  exact h.trans (by decide)

def c3CexStore : Store := fun _ => .ok ⟨[7], some ("bytes=0-9/100"), none⟩

def c3CexParams : GetObjectStreamInput := ⟨"bucket", "key", some ("bytes=0-1"), some 1⟩

/-- C3 counterexample: with `Range` and `PartNumber` both set (both truthy)
and a store that accepts the request, `getObjectStream` returns a stream
(`.ok`) whose bootstrap fetch carried **both** fields: no invalid-input
rejection happens and a sink is produced, while the claim says the call
rejects before any fetch is issued and no stream is produced. -/
theorem getObjectStream_bothSet_accepted :
    getObjectStream 10 1 c3CexStore (fun _ => true) (fun _ => 0) c3CexParams
      = .ok ⟨none, some 100, c3CexParams, [7], none⟩
    ∧ strTruthy c3CexParams.Range = true
    ∧ numTruthy c3CexParams.PartNumber = true :=
  ⟨by decide, by decide, by decide⟩

/-- C6 (amended): when a client range with **non-zero** parsed length is
present (and no part number), the sink's `contentLength` is set to the
parsed length `endByte − startByte`, for every store response — in
particular it is independent of the response's `ContentRange` total. The
claim's unqualified version is false: through
`contentLength || parseInt(ContentRange...)`, a client range of parsed
length `0` (e.g. `bytes=n-n`) is falsy and the total **is** taken from
`ContentRange` (see the counterexample). -/
theorem getObjectStream_clientRange_length_priority
    (p c : Nat) (store : Store) (ready : Nat → Bool) (finish : Nat → Nat)
    (params : GetObjectStreamInput) (rs : String) (ri : RangeInfo) (out : GetObjectOutput)
    (hB : params.Bucket ≠ "") (hK : params.Key ≠ "")
    (hR : params.Range = some rs)
    (hparse : getInformationFromRange rs = .ok ri)
    (hPN : numTruthy params.PartNumber = false)
    (hlen : ri.length ≠ 0)
    (hstore : store { params with
        Range := some (getRangeOfPart 0 ri.length p ri.startByte) } = .ok out) :
    ∃ res, getObjectStream p c store ready finish params = .ok res ∧
      res.contentLength = some ri.length ∧
      ri.length = (ri.endByte : Int) - (ri.startByte : Int) := by
  refine ⟨_, getObjectStream_clientRange_run p c store ready finish params rs ri out
    hB hK hR hparse hPN hlen hstore, rfl, ?_⟩
  obtain ⟨_, _, _, _, _, _, _, hval⟩ := getInformationFromRange_decomp_of_ok hparse
  rw [hval]

def c6Store : Store := fun _ => .ok ⟨[1], some ("bytes=100-899/5000"), some ("t")⟩

def c6Params : GetObjectStreamInput := ⟨"bucket", "key", some ("bytes=100-900"), none⟩

theorem getObjectStream_clientRange_length_priority_witness :
    ∃ res, getObjectStream 1000 1 c6Store (fun _ => true) (fun _ => 0) c6Params = .ok res ∧
      res.contentLength = some (⟨100, 900, 800⟩ : RangeInfo).length ∧
      (⟨100, 900, 800⟩ : RangeInfo).length
        = ((⟨100, 900, 800⟩ : RangeInfo).endByte : Int)
          - ((⟨100, 900, 800⟩ : RangeInfo).startByte : Int) :=
  getObjectStream_clientRange_length_priority 1000 1 c6Store (fun _ => true) (fun _ => 0)
    c6Params ("bytes=100-900") ⟨100, 900, 800⟩ ⟨[1], some ("bytes=100-899/5000"), some ("t")⟩
    (by decide) (by decide) rfl (by decide) (by decide) (by decide) rfl

def c6CexStore : Store := fun _ => .ok ⟨[9], some ("bytes=5-4/100"), none⟩

def c6CexParams : GetObjectStreamInput := ⟨"bucket", "key", some ("bytes=5-5"), none⟩

/-- C6 counterexample: the request carries the client range `bytes=5-5`
(and no part number), whose parsed logical length is `0 = end − start`; the
claim says the sink's `contentLength` is then set to that parsed length and
not to the `ContentRange` total — but the run sets it to `100`, the total
parsed from the store's `ContentRange`. -/
theorem getObjectStream_zeroLen_uses_total :
    (getObjectStream 1000 1 c6CexStore (fun _ => true) (fun _ => 0) c6CexParams).map
        (fun r => r.contentLength) = .ok (some 100)
    ∧ some (100 : Int) ≠ some ((0 : Int))
    ∧ getInformationFromRange "bytes=5-5" = .ok ⟨5, 5, 0⟩ :=
  ⟨by decide, by decide, by decide⟩

/-- C10: whenever the request does not determine a non-zero logical content
length (a truthy part number, no truthy range, or a client range whose
parsed length is `0`), `getObjectStream` evaluates
`parseInt(getObjectData.ContentRange.split('/')[1])`; when the fetch result
carries no `ContentRange`, this dereference is a runtime `TypeError`: the
returned promise rejects and no sink is returned to the caller. -/
theorem getObjectStream_content_range_deref
    (p c : Nat) (store : Store) (ready : Nat → Bool) (finish : Nat → Nat)
    (params : GetObjectStreamInput) (out : GetObjectOutput)
    (hB : params.Bucket ≠ "") (hK : params.Key ≠ "")
    (hstore : ∀ q, store q = .ok out)
    (hcr : out.ContentRange = none)
    (hfalsy : numTruthy params.PartNumber = true ∨ strTruthy params.Range = false ∨
      (∃ rs ri, params.Range = some rs ∧ getInformationFromRange rs = .ok ri ∧
        ri.length = 0)) :
    getObjectStream p c store ready finish params = .error .contentRangeUndefined := by
  rcases hfalsy with hPN | hRf | ⟨rs, ri, hR, hparse, hlen⟩
  · rw [getObjectStream_partNumber_truthy_run p c store ready finish params out hB hK hPN
      (hstore params), hcr]
  · by_cases hPN : numTruthy params.PartNumber = true
    · rw [getObjectStream_partNumber_truthy_run p c store ready finish params out hB hK hPN
        (hstore params), hcr]
    · rw [Bool.not_eq_true] at hPN
      rw [getObjectStream_noRange_run p c store ready finish params out hB hK hRf hPN
        (hstore _), hcr]
  · by_cases hPN : numTruthy params.PartNumber = true
    · rw [getObjectStream_partNumber_truthy_run p c store ready finish params out hB hK hPN
        (hstore params), hcr]
    · rw [Bool.not_eq_true] at hPN
      exact getObjectStream_clientRange_zeroLen_noCR p c store ready finish params rs ri out
        hB hK hR hparse hPN hlen (hstore _) hcr

def c10Store : Store := fun _ => .ok ⟨[1], none, none⟩

def c10Params : GetObjectStreamInput := ⟨"bucket", "key", none, none⟩

theorem getObjectStream_content_range_deref_witness :
    getObjectStream 10 1 c10Store (fun _ => true) (fun _ => 0) c10Params
      = .error .contentRangeUndefined :=
  getObjectStream_content_range_deref 10 1 c10Store (fun _ => true) (fun _ => 0)
    c10Params ⟨[1], none, none⟩ (by decide) (by decide) (fun _ => rfl) rfl
    (Or.inr (Or.inl (by decide)))

/-- C9: for every call whose request has a falsy `PartNumber` and which
returns a stream, the caller's request object was mutated: the `Range`
field was overwritten with the bootstrap sub-range string — provably
different from its original value — before the first fetch, and every
pipeline fetch overwrote it again with that part's range string (`Bucket`,
`Key` and `PartNumber` stay untouched, as the issued parameter snapshots
show). The request object the caller holds after the call therefore differs
from the one passed in. -/
theorem getObjectStream_mutates_params
    (p c : Nat) (store : Store) (ready : Nat → Bool) (finish : Nat → Nat)
    (params : GetObjectStreamInput) (res : StreamResult)
    (hPN : numTruthy params.PartNumber = false)
    (hrun : getObjectStream p c store ready finish params = .ok res) :
    (res.bootstrapParams.Bucket = params.Bucket ∧ res.bootstrapParams.Key = params.Key
      ∧ res.bootstrapParams.PartNumber = params.PartNumber)
    ∧ res.bootstrapParams.Range ≠ params.Range
    ∧ ∃ total2 off2, ∀ i ps', DBPEv.issue i ps' ∈ res.pipeline.getD [] →
        ps' = { params with Range := some (getRangeOfPart i total2 p off2) } := by
  obtain ⟨rNew, total2, off2, hbp, hne, hpip⟩ :=
    getObjectStream_ok_inversion p c store ready finish params res hPN hrun
  refine ⟨⟨by rw [hbp], by rw [hbp], by rw [hbp]⟩, ?_, total2, off2, ?_⟩
  · rw [hbp]
    exact hne
  · intro i ps' hmem
    rcases hpip with hnone | hsome
    · rw [hnone] at hmem
      simp at hmem
    · rw [hsome] at hmem
      simp only [Option.getD_some] at hmem
      exact dbpGo_issue_mem p c store ready finish total2 off2 (numPartsOf total2 p)
        params (numPartsOf total2 p - 1) [] (some rNew) 1 0 0 i ps' hmem

def c9Store : Store := fun _ => .ok ⟨[1], some ("x/0"), some ("t")⟩

def c9Params : GetObjectStreamInput := ⟨"bucket", "key", some ("bytes=0-25"), none⟩

def c9Res : StreamResult :=
  ⟨some ("t"), some 25, ⟨"bucket", "key", some ("bytes=0-24"), none⟩, [1], none⟩

theorem getObjectStream_mutates_params_witness :
    (c9Res.bootstrapParams.Bucket = c9Params.Bucket
      ∧ c9Res.bootstrapParams.Key = c9Params.Key
      ∧ c9Res.bootstrapParams.PartNumber = c9Params.PartNumber)
    ∧ c9Res.bootstrapParams.Range ≠ c9Params.Range
    ∧ ∃ total2 off2, ∀ i ps', DBPEv.issue i ps' ∈ c9Res.pipeline.getD [] →
        ps' = { c9Params with Range := some (getRangeOfPart i total2 1000 off2) } :=
  getObjectStream_mutates_params 1000 1 c9Store (fun _ => true) (fun _ => 0)
    c9Params c9Res (by decide) (by decide)

/-- C2 (amended): for a client range `bytes=s-e` with `s < e` (and no part
number), the bootstrap fetch plus the pipeline request exactly the
half-open byte interval `[s, e)` — `s` through `e − 1` — and the delivered
stream is the byte-exact slice of the source object over that interval. The
claim as stated is false for the wire format's inclusive end bound (§6):
the final requested byte `e` is never fetched, because the parsed length is
`e − s` rather than `e − s + 1` (see the counterexample); `s = e` produces
the degenerate request `bytes=s-(s−1)` and falls into the C6/C10
fallback. -/
theorem getObjectStream_clientRange_slice
    (p c s e : Nat) (store : Store) (ready : Nat → Bool) (finish : Nat → Nat)
    (params : GetObjectStreamInput) (rs : String) (source : Nat → Nat)
    (g : Nat → GetObjectOutput)
    (hp : 1 ≤ p) (hc : 1 ≤ c) (hse : s < e)
    (hB : params.Bucket ≠ "") (hK : params.Key ≠ "")
    (hR : params.Range = some rs)
    (hparse : getInformationFromRange rs = .ok ⟨s, e, (e : Int) - (s : Int)⟩)
    (hPN : numTruthy params.PartNumber = false)
    (hstore : ∀ i, i < numPartsOf (e - s) p →
      store (rangeParamsFor params i (e - s) p s) = .ok (g i))
    (hbody : ∀ i, i < numPartsOf (e - s) p →
      (g i).Body = partSlice source i (e - s) p s) :
    ∃ res, getObjectStream p c store ready finish params = .ok res ∧
      streamBytes res = (List.range' s (e - s)).map source := by
  have hcast : ((e - s : Nat) : Int) = (e : Int) - (s : Int) := by omega
  have hn1 : 1 ≤ numPartsOf (e - s) p := by
    have h := (@lt_numPartsOf_iff (e - s) p 0 hp).mpr (by omega)
    omega
  have hlen : ((⟨s, e, (e : Int) - (s : Int)⟩ : RangeInfo)).length ≠ 0 := by
    simp only []
    omega
  have hrpf : rangeParamsFor params 0 (e - s) p s
      = { params with Range := some (getRangeOfPart 0 ((e : Int) - (s : Int)) p s) } := by
    simp only [rangeParamsFor_range, hcast, Nat.cast_zero]
  have hstore0 := hstore 0 hn1
  rw [hrpf] at hstore0
  refine ⟨_, getObjectStream_clientRange_run p c store ready finish params rs
    ⟨s, e, (e : Int) - (s : Int)⟩ (g 0) hB hK hR hparse hPN hlen hstore0, ?_⟩
  rw [streamBytes]
  simp only []
  have hb0 : (g 0).Body = partSlice source 0 (e - s) p s := hbody 0 hn1
  by_cases hgt : p < e - s
  · have hjs : jsGtNat (some ((⟨s, e, (e : Int) - (s : Int)⟩ : RangeInfo)).length) p
        = true := by
      simp only [jsGtNat]
      rw [decide_eq_true_iff]
      omega
    rw [hjs, if_pos rfl, Option.getD_some]
    have htoNat : ((⟨s, e, (e : Int) - (s : Int)⟩ : RangeInfo)).length.toNat = e - s := by
      simp only []
      omega
    rw [htoNat]
    have hdbp := downloadByParts_ok p c store ready finish
      { params with Range := some (getRangeOfPart 0
          ((⟨s, e, (e : Int) - (s : Int)⟩ : RangeInfo)).length p
          ((⟨s, e, (e : Int) - (s : Int)⟩ : RangeInfo)).startByte) }
      (e - s) ((⟨s, e, (e : Int) - (s : Int)⟩ : RangeInfo)).startByte 1 g hc
      (fun i hi => hstore i hi)
    rw [hdbp.1]
    rw [List.map_map]
    have hmapeq : ((List.range' 1 (numPartsOf (e - s) p - 1)).map
          (Prod.snd ∘ fun i => (i, (g i).Body)))
        = (List.range' 1 (numPartsOf (e - s) p - 1)).map
          (fun i => partSlice source i (e - s) p s) := by
      apply List.map_congr_left
      intro a ha
      rw [List.mem_range'_1] at ha
      exact hbody a (by omega)
    rw [hmapeq, hb0]
    have hrz : List.range' 0 (numPartsOf (e - s) p)
        = 0 :: List.range' 1 (numPartsOf (e - s) p - 1) := by
      obtain ⟨m, hm⟩ : ∃ m, numPartsOf (e - s) p = m + 1 :=
        ⟨numPartsOf (e - s) p - 1, by omega⟩
      rw [hm, List.range'_succ]
      simp
    have hflat := slices_flatten source (e - s) p s hp (numPartsOf (e - s) p) le_rfl
    rw [hrz, List.map_cons, List.flatten_cons] at hflat
    rw [hflat]
    have hminn : min (e - s) (numPartsOf (e - s) p * p) = e - s := by
      have h1 := @total_le_numPartsOf_mul (e - s) p hp
      have h2 : numPartsOf (e - s) p * p = p * numPartsOf (e - s) p := Nat.mul_comm _ _
      omega
    rw [hminn]
  · have hjs : jsGtNat (some ((⟨s, e, (e : Int) - (s : Int)⟩ : RangeInfo)).length) p
        = false := by
      simp only [jsGtNat]
      rw [decide_eq_false_iff_not]
      omega
    rw [hjs]
    simp only [Bool.false_eq_true, if_false, Option.getD_none]
    rw [hb0]
    have hps : partSlice source 0 (e - s) p s = (List.range' s (e - s)).map source := by
      rw [partSlice, partStartByteN, partEndByteN]
      have h2 : min (e - s) ((0 + 1) * p) + s - (0 * p + s) = e - s := by omega
      rw [h2]
      have h1 : 0 * p + s = s := by omega
      rw [h1]
    rw [hps]
    simp [dbpWrites]

def c2Src (b : Nat) : Nat := b

def c2Store : Store := fun ps =>
  match getInformationFromRange (ps.Range.getD ("")) with
  | .ok ri => .ok ⟨(List.range' ri.startByte (ri.endByte + 1 - ri.startByte)).map c2Src,
      some ("cr"), none⟩
  | .error e => .error e

def c2G (i : Nat) : GetObjectOutput := ⟨partSlice c2Src i 7 3 2, some ("cr"), none⟩

def c2Params : GetObjectStreamInput := ⟨"bucket", "key", some ("bytes=2-9"), none⟩

theorem getObjectStream_clientRange_slice_witness :
    ∃ res, getObjectStream 3 2 c2Store (fun _ => true) (fun _ => 0) c2Params = .ok res ∧
      streamBytes res = (List.range' 2 7).map c2Src :=
  getObjectStream_clientRange_slice 3 2 2 9 c2Store (fun _ => true) (fun _ => 0) c2Params
    ("bytes=2-9") c2Src c2G (by decide) (by decide) (by decide) (by decide) (by decide)
    rfl (by decide) (by decide) (by decide) (by decide)

def c2CexStore : Store := fun ps =>
  match getInformationFromRange (ps.Range.getD ("")) with
  | .ok ri => .ok ⟨(List.range' ri.startByte (min (ri.endByte + 1) 5 - ri.startByte)).map
      (fun b => b), some ("bytes=0-3/5"), none⟩
  | .error e => .error e

def c2CexParams : GetObjectStreamInput := ⟨"bucket", "key", some ("bytes=0-4"), none⟩

/-- C2 counterexample: the client requests `bytes=0-4` of a 5-byte object
`[0,1,2,3,4]` (per §6 the wire format's end bound is inclusive, so the
requested bounds are bytes 0 through 4). The store faithfully serves every
requested range, yet the delivered stream is `[0,1,2,3]`: byte `4` is never
requested by the bootstrap fetch or the pipeline, so the stream is not a
byte-exact match of the requested bounds. -/
theorem getObjectStream_range_misses_last_byte :
    (getObjectStream 10 1 c2CexStore (fun _ => true) (fun _ => 0) c2CexParams).map
        streamBytes = .ok [0, 1, 2, 3]
    ∧ ([0, 1, 2, 3] : List Nat) ≠ [0, 1, 2, 3, 4] :=
  ⟨by decide, by decide⟩

